import Mathlib

/-!
A verification development for the OptiMerge BOM-optimization backend
(FastAPI + pandas service). The Python modules `bom_utils.py`, `main.py`,
`bom_savings_utils.py` and `clustering_utils.py` are shallowly embedded:

* pandas DataFrames become lists of row structures holding the values a row
  has *after* the numeric coercions performed by the source
  (`pd.to_numeric(..., errors='coerce')` giving `Option` values, `fillna`
  giving `getD`);
* Python floats are modelled as exact rationals (`ℚ`);
* Python dicts are modelled as insertion-ordered association lists
  (`List (key × value)`), looked up with `List.lookup`;
* `round(x, n)` is modelled by `pyRound n` (round-half-to-even at `n`
  decimal digits, the behaviour of Python's `round` on exact values);
* `str.strip()` is modelled by `pyStrip` (whitespace trimming on the
  character list).

Each embedded function carries a comment naming the Python source it
translates.  Theorems then settle the specified properties of those
functions.
-/

namespace OptiMerge

/-- Python `str.strip()`: remove leading and trailing whitespace. -/
def pyStrip (s : String) : String :=
  String.mk (((s.data.dropWhile Char.isWhitespace).reverse.dropWhile Char.isWhitespace).reverse)

/-- Round a rational to the nearest integer, ties to even — the rounding
mode of Python's built-in `round`. -/
def roundHalfEven (q : ℚ) : ℤ :=
  let f := ⌊q⌋
  let r := q - f
  if r < 1/2 then f
  else if 1/2 < r then f + 1
  else if Even f then f else f + 1

/-- Python `round(q, nd)`: round to `nd` decimal digits, ties to even. -/
def pyRound (nd : ℕ) (q : ℚ) : ℚ :=
  (roundHalfEven (q * 10 ^ nd) : ℚ) / 10 ^ nd

/-- Python `"%.{nd}f" % q` fixed-point formatting (used inside suggestion
message strings). -/
def formatFixed (nd : ℕ) (q : ℚ) : String :=
  let n := roundHalfEven (q * 10 ^ nd)
  let a := n.natAbs
  let intPart := a / 10 ^ nd
  let fracPart := a % 10 ^ nd
  let fracStr := toString fracPart
  let pad := String.mk (List.replicate (nd - fracStr.length) '0')
  (if n < 0 then "-" else "") ++ toString intPart ++
    (if nd = 0 then "" else "." ++ pad ++ fracStr)

/-- Insertion-ordered accumulation into an association list:
`m[k] = m.get(k, 0) + v` on a Python dict (existing key keeps its
position, new key is appended). -/
def assocAdd (m : List (String × ℚ)) (k : String) (v : ℚ) : List (String × ℚ) :=
  if (m.lookup k).isSome then
    m.map (fun kv => if kv.1 == k then (kv.1, kv.2 + v) else kv)
  else
    m ++ [(k, v)]

/-- `matrix.get(a, {}).get(b, 0)` on the nested similarity-matrix dicts. -/
def matrixEntry (m : List (String × List (String × ℚ))) (a b : String) : ℚ :=
  (((m.lookup a).getD []).lookup b).getD 0

/-- `clean_column_name`, step 1: `re.sub(r'[^a-zA-Z0-9]', '_', ·)`. -/
def replaceNonAlnumChar (c : Char) : Char :=
  if c.isAlphanum then c else '_'

/-- `clean_column_name`, step 2: `re.sub(r'_+', '_', ·)` — collapse every
run of underscores to a single one. -/
def squeezeUnderscores : List Char → List Char
  | [] => []
  | c :: cs =>
    match squeezeUnderscores cs with
    | [] => [c]
    | d :: ds => if c == '_' && d == '_' then d :: ds else c :: d :: ds

/-- `clean_column_name`, step 3: `str.strip('_')`. -/
def stripUnderscores (l : List Char) : List Char :=
  ((l.dropWhile (fun c => c == '_')).reverse.dropWhile (fun c => c == '_')).reverse

/-- The character-list pipeline of `clean_column_name`:
`lower`, then replace non-alphanumerics by `'_'`, collapse underscore
runs, strip boundary underscores. -/
def cleanChars (l : List Char) : List Char :=
  stripUnderscores (squeezeUnderscores ((l.map Char.toLower).map replaceNonAlnumChar))

/-- `clean_column_name(column_name)` (bom_utils.py lines 9–14; the same
function is repeated verbatim in main.py, clustering_utils.py and
utils.py).  `none` models a `None`/NaN column label
(`pd.isna(column_name) or column_name is None`). -/
def clean_column_name : Option String → String
  | none => "unknown"
  | some s => String.mk (cleanChars s.data)

/-- The inner absorption loop of `find_assembly_clusters`
(bom_utils.py lines 558–561): scan the full assembly list, absorbing every
not-yet-used assembly whose similarity to the seed `a` strictly exceeds
the threshold, marking it used immediately. -/
def clusterAbsorb (matrix : List (String × List (String × ℚ))) (t : ℚ) (a : String) :
    List String → List String → List String
  | [], _ => []
  | b :: rest, used =>
    if b ∉ used ∧ matrixEntry matrix a b > t then
      b :: clusterAbsorb matrix t a rest (b :: used)
    else
      clusterAbsorb matrix t a rest used

/-- The outer loop of `find_assembly_clusters` (bom_utils.py lines 552–562).
The Python code mutates a `used` set; after a cluster is finished the
updated set holds exactly the elements of `members ++ a :: used`, which is
how the recursion rebuilds it (only membership in `used` is ever tested). -/
def clustersGo (assemblies : List String) (matrix : List (String × List (String × ℚ)))
    (t : ℚ) : List String → List String → List (List String)
  | [], _ => []
  | a :: rest, used =>
    if a ∈ used then clustersGo assemblies matrix t rest used
    else
      let members := clusterAbsorb matrix t a assemblies (a :: used)
      (a :: members) :: clustersGo assemblies matrix t rest (members ++ a :: used)

/-- `find_assembly_clusters(assemblies, similarity_matrix, threshold)`
(bom_utils.py lines 550–563).  main.py lines 212–230 contain the *same*
greedy loop with the threshold fixed at 80, which is also the value the
bom_utils caller uses (the parameter's default). -/
def find_assembly_clusters (assemblies : List String)
    (matrix : List (String × List (String × ℚ))) (threshold : ℚ) : List (List String) :=
  clustersGo assemblies matrix threshold assemblies []

/-- `calculate_reduction_potential(clusters, total_assemblies)`
(bom_utils.py lines 566–570; repeated verbatim in main.py lines 232–242). -/
def calculate_reduction_potential (clusters : List (List String)) (total : Nat) : ℚ :=
  if total = 0 then 0
  else pyRound 1 ((((clusters.map (fun c => c.length - 1)).sum : ℕ) : ℚ) / total * 100)

end OptiMerge

namespace MainApp

open OptiMerge

/-- A stored analysis document as the `/analysis/{analysis_id}` handler
sees it: the Mongo `_id` (modelled as a number, stringified by the
handler), the service-level fields written by `save_analysis_to_mongodb`
(main.py lines 857–877) and the raw payload (opaque here). -/
structure AnalysisDoc where
  oid : Nat
  id : String
  type : String
  date : String
  status : String
  raw : String
deriving Repr, DecidableEq

/-- The JSON document returned by the handler: the same document with
`_id` converted to a string. -/
structure AnalysisResponse where
  oid : String
  id : String
  type : String
  date : String
  status : String
  raw : String
deriving Repr, DecidableEq

/-- The `GET /analysis/{analysis_id}` handler (main.py lines 824–845).
`findOne` models `analysis_collection.find_one({"id": analysis_id})` and
`cache` models the process-global `analysis_results` dict.  The handler
queries the database, raises 404 when no document is found, and otherwise
returns the document with `_id` stringified; everything after the first
`return` is unreachable, and the in-memory cache is never consulted. -/
def get_analysis (findOne : String → Option AnalysisDoc)
    (cache : String → Option String) (analysis_id : String) :
    Except Nat AnalysisResponse :=
  match findOne analysis_id with
  | none => Except.error 404
  | some d => Except.ok ⟨toString d.oid, d.id, d.type, d.date, d.status, d.raw⟩

/-- One row of the validated BOM table consumed by main.py's
`analyze_bom_data`: `validate_bom_data` (main.py lines 415–486) coerces
`lev` with `pd.to_numeric(..., errors='coerce')` (NaN survives as `none`)
and `quantity` with a `fillna(0)`.  Only these three columns are read by
the analysis path. -/
structure MainRow where
  lev : Option Int
  component : String
  quantity : ℚ
deriving Repr, DecidableEq

/-- A row after main.py's `preprocess_bom_file` added `assembly_id` and
`is_assembly`. -/
structure MainProcRow where
  lev : Option Int
  component : String
  quantity : ℚ
  assembly_id : String
  is_assembly : Bool
deriving Repr, DecidableEq

/-- The assembly-id assignment loop of main.py's `preprocess_bom_file`
(lines 67–83): a `lev == 0` row (NaN compares unequal) starts a new
assembly named by its raw component value; other rows inherit the current
assembly, with a synthetic `ASSY_<idx>` id when no header has been seen. -/
def mainAssemblyIdsGo : Nat → Option String → List MainRow → List String
  | _, _, [] => []
  | idx, cur, r :: rest =>
    if r.lev == some 0 then
      r.component :: mainAssemblyIdsGo (idx + 1) (some r.component) rest
    else
      match cur with
      | some a => a :: mainAssemblyIdsGo (idx + 1) (some a) rest
      | none =>
        let a := "ASSY_" ++ toString idx
        a :: mainAssemblyIdsGo (idx + 1) (some a) rest

/-- main.py's `preprocess_bom_file` (lines 53–87): attach `assembly_id`
and `is_assembly = (lev == 0)` to every row. -/
def preprocess_bom_file (df : List MainRow) : List MainProcRow :=
  (df.zip (mainAssemblyIdsGo 0 none df)).map
    (fun p => ⟨p.1.lev, p.1.component, p.1.quantity, p.2, p.1.lev == some 0⟩)

/-- An element of a pair's `common_components` list
(main.py lines 147–152). -/
structure CommonDetail where
  component : String
  qty_a : ℚ
  qty_b : ℚ
  common_qty : ℚ
deriving Repr, DecidableEq

/-- An element of `similar_pairs` (main.py lines 159–170). -/
structure MainPair where
  bom_a : String
  bom_b : String
  similarity_score : ℚ
  common_components : List CommonDetail
  unique_components_a : List String
  unique_components_b : List String
  common_count : Nat
  common_quantity_total : ℚ
  unique_count_a : Nat
  unique_count_b : Nat
deriving Repr, DecidableEq

/-- The two fields of main.py's `compute_bom_similarity` result that its
caller consumes. -/
structure SimOutput where
  similarity_matrix : List (String × List (String × ℚ))
  similar_pairs : List MainPair
deriving Repr, DecidableEq

/-- The quantity-weighted similarity of main.py's `compute_bom_similarity`
(lines 111–131): 100 when both component dicts are empty, 0 when exactly
one is, otherwise `Σ min(q₁,q₂) / Σ max(q₁,q₂) × 100` over the union of
component names (0 when that union quantity is 0).  Python iterates a
`set`, whose order is irrelevant to the sums; the union of names is
modelled as `dedup` of the concatenated key lists. -/
def weightedSim (m₁ m₂ : List (String × ℚ)) : ℚ :=
  if m₁.isEmpty ∧ m₂.isEmpty then 100
  else if m₁.isEmpty ∨ m₂.isEmpty then 0
  else
    let keys := (m₁.map Prod.fst ++ m₂.map Prod.fst).dedup
    let inter := (keys.map (fun k => min ((m₁.lookup k).getD 0) ((m₂.lookup k).getD 0))).sum
    let union := (keys.map (fun k => max ((m₁.lookup k).getD 0) ((m₂.lookup k).getD 0))).sum
    if union = 0 then 0 else inter / union * 100

/-- The pair-detail block of main.py's `compute_bom_similarity`
(lines 136–170). -/
def mainPairDetail (a b : String) (m₁ m₂ : List (String × ℚ)) (sim : ℚ) : MainPair :=
  let keys := (m₁.map Prod.fst ++ m₂.map Prod.fst).dedup
  let common := keys.filterMap (fun k =>
    let q1 := (m₁.lookup k).getD 0
    let q2 := (m₂.lookup k).getD 0
    if min q1 q2 > 0 then some (⟨k, q1, q2, min q1 q2⟩ : CommonDetail) else none)
  let unique₁ := (m₁.map Prod.fst).filter (fun k => (m₂.lookup k).isNone)
  let unique₂ := (m₂.map Prod.fst).filter (fun k => (m₁.lookup k).isNone)
  ⟨a, b, pyRound 4 (sim / 100), common, unique₁, unique₂,
    common.length, (common.map (·.common_qty)).sum, unique₁.length, unique₂.length⟩

/-- main.py's `compute_bom_similarity(assembly_components, threshold)`
(lines 89–175): the quantity-weighted similarity actually used by the
`/analyze/bom-similarity/` endpoint.  The matrix stores values rounded to
2 decimals; a pair is emitted for `i < j` when the (unrounded) similarity
strictly exceeds the threshold.  With fewer than 2 assemblies the source
returns `create_empty_bom_results()`, of which downstream code reads only
the empty matrix and pair list. -/
def compute_bom_similarity (ac : List (String × List (String × ℚ))) (threshold : ℚ) :
    SimOutput :=
  let assemblies := ac.map Prod.fst
  if assemblies.length < 2 then ⟨[], []⟩
  else
    let cm := fun x => (ac.lookup x).getD []
    ⟨assemblies.map (fun a =>
        (a, assemblies.map (fun b => (b, pyRound 2 (weightedSim (cm a) (cm b)))))),
      assemblies.enum.flatMap (fun ia =>
        assemblies.enum.filterMap (fun jb =>
          if ia.1 < jb.1 ∧ weightedSim (cm ia.2) (cm jb.2) > threshold then
            some (mainPairDetail ia.2 jb.2 (cm ia.2) (cm jb.2)
              (weightedSim (cm ia.2) (cm jb.2)))
          else none))⟩

/-- A suggestion produced by main.py's `generate_replacement_suggestions`
(lines 177–210); the nested `details` dict is flattened with a `det_`
prefix. -/
structure MainSuggestion where
  type : String
  bom_a : String
  bom_b : String
  similarity_score : ℚ
  suggestion : String
  confidence : ℚ
  potential_savings : ℚ
  det_common_components : Nat
  det_common_quantity_total : ℚ
  det_unique_to_a : Nat
  det_unique_to_b : Nat
deriving Repr, DecidableEq

/-- main.py's `generate_replacement_suggestions(similar_pairs)`
(lines 177–210): top 5 pairs, `potential_savings` taken from the pair's
`common_quantity_total` (always present). -/
def generate_replacement_suggestions (pairs : List MainPair) : List MainSuggestion :=
  (pairs.take 5).map (fun p =>
    ⟨"bom_consolidation", p.bom_a, p.bom_b, p.similarity_score,
      "Consolidate " ++ p.bom_a ++ " and " ++ p.bom_b ++ " (" ++
        formatFixed 1 (p.similarity_score * 100) ++ "% similar)",
      p.similarity_score, p.common_quantity_total,
      p.common_count, p.common_quantity_total, p.unique_count_a, p.unique_count_b⟩)

/-- The `bom_statistics` block of main.py's `analyze_bom_data`
(lines 314–321). -/
structure MainStats where
  total_components : Nat
  unique_components : Nat
  total_assemblies : Nat
  total_clusters : Nat
  similar_pairs_count : Nat
  reduction_potential : ℚ
deriving Repr, DecidableEq

/-- The result shape of main.py's `analyze_bom_data` (lines 310–323). -/
structure MainResults where
  similarity_matrix : List (String × List (String × ℚ))
  similar_pairs : List MainPair
  replacement_suggestions : List MainSuggestion
  bom_statistics : MainStats
  clusters : List (List String)
deriving Repr, DecidableEq

/-- `create_empty_bom_results()` (main.py lines 244–259): the all-empty
result structure with explicitly zeroed statistics. -/
def create_empty_bom_results : MainResults :=
  ⟨[], [], [], ⟨0, 0, 0, 0, 0, 0⟩, []⟩

/-- The per-assembly `comp_qty` accumulation of main.py's
`analyze_bom_data` (lines 286–294): strip the component name and sum
quantities per name, insertion-ordered. -/
def buildCompQty (rows : List MainProcRow) : List (String × ℚ) :=
  rows.foldl (fun m r => assocAdd m (pyStrip r.component) r.quantity) []

/-- `processed['lev'] > 0` on a possibly-NaN level (NaN compares false). -/
def levPositive (r : MainProcRow) : Bool :=
  match r.lev with
  | some v => decide (v > 0)
  | none => false

/-- `component_df = bom_df_processed[bom_df_processed['lev'] > 0]`
(main.py line 269). -/
def componentDf (df : List MainRow) : List MainProcRow :=
  (preprocess_bom_file df).filter levPositive

/-- `assemblies = component_df['assembly_id'].unique()` (main.py
line 272; pandas `unique` preserves first-occurrence order). -/
def assembliesOf (df : List MainRow) : List String :=
  ((componentDf df).map (·.assembly_id)).dedup

/-- The `assembly_components` dict of main.py's `analyze_bom_data`
(lines 282–295). -/
def assemblyComponents (df : List MainRow) : List (String × List (String × ℚ)) :=
  (assembliesOf df).map (fun a =>
    (a, buildCompQty ((componentDf df).filter (fun r => r.assembly_id == a))))

/-- main.py's `analyze_bom_data(bom_df, threshold)` (lines 261–326):
preprocess, keep `lev > 0` component rows, and with fewer than 2 distinct
assemblies among them return `create_empty_bom_results()`; otherwise build
per-assembly quantity maps, run the quantity-weighted similarity, derive
suggestions, greedy clusters (threshold 80) and statistics. -/
def analyze_bom_data (df : List MainRow) (threshold : ℚ) : MainResults :=
  if (assembliesOf df).length < 2 then create_empty_bom_results
  else
    let sim := compute_bom_similarity (assemblyComponents df) threshold
    let clusters := find_assembly_clusters (assembliesOf df) sim.similarity_matrix 80
    ⟨sim.similarity_matrix, sim.similar_pairs,
      generate_replacement_suggestions sim.similar_pairs,
      ⟨(componentDf df).length, ((componentDf df).map (·.component)).dedup.length,
        (assembliesOf df).length, clusters.length, sim.similar_pairs.length,
        calculate_reduction_potential clusters (assembliesOf df).length⟩,
      clusters⟩

/-- The analysis invocation of the `POST /analyze/bom-similarity/` handler
(main.py lines 757–777): `threshold_percent = threshold * 100`
unconditionally, then `analyze_bom_data(df, threshold_percent)`. -/
def analyze_bom_similarity_endpoint (df : List MainRow) (threshold : ℚ) : MainResults :=
  analyze_bom_data df (threshold * 100)

/-- Modelled from the spec's words, for comparison with the endpoint: a
threshold in [0, 1] is a fraction and is multiplied by 100, while a value
greater than 1 is already a percentage and passes through unchanged. -/
def specThresholdPercent (t : ℚ) : ℚ :=
  if 1 < t then t else t * 100

end MainApp

namespace ClusteringUtils

/-- The cluster-count resolution step of `perform_dimensional_clustering`
(clustering_utils.py lines 110–117; the identical logic is inlined in
main.py's `/analyze/dimensional-clustering/` handler, lines 659–666).
`n_rows` is `len(df)`.  The resolved value is what is passed to
`KMeans(n_clusters=...)` and `fcluster(..., maxclust)`; the numeric
clustering itself is an external sklearn/scipy call and is not modelled. -/
def resolve_n_clusters (n_clusters : Option Int) (n_rows : Nat) : Int :=
  match n_clusters with
  | some n => max 2 (min n (n_rows : Int))
  | none => ((min 5 (max 2 (n_rows / 3)) : Nat) : Int)

end ClusteringUtils

namespace BomUtils

open OptiMerge

/-- A row of the BOM table fed to bom_utils.py's `preprocess_bom_file`,
holding the values of the heuristically detected columns (the
detection/renaming of lines 30–60 is upstream of this model).  `none`
models a NaN produced by `pd.to_numeric(..., errors='coerce')`;
`component` is the value after `.astype(str)`. -/
structure RawBomRow where
  lev : Option Int
  component : String
  quantity : Option ℚ
  unit_price : Option ℚ
  currency : String
deriving Repr, DecidableEq

/-- A row after the coercions of bom_utils.py lines 62–88:
`lev` filled with 0, `quantity` and `unit_price` filled with 0.0,
`currency` stripped. -/
structure CoRow where
  lev : Int
  component : String
  quantity : ℚ
  unit_price : ℚ
  currency : String
deriving Repr, DecidableEq

/-- The numeric coercions of bom_utils.py lines 62–88. -/
def coerceBomRow (r : RawBomRow) : CoRow :=
  ⟨r.lev.getD 0, r.component, r.quantity.getD 0, r.unit_price.getD 0, pyStrip r.currency⟩

/-- A fully preprocessed BOM row (bom_utils.py lines 90–107). -/
structure ProcRow where
  lev : Int
  component : String
  quantity : ℚ
  unit_price : ℚ
  currency : String
  assembly_id : String
  is_assembly : Bool
deriving Repr, DecidableEq

/-- The assembly-id assignment loop of bom_utils.py's
`preprocess_bom_file` (lines 91–102): a `lev == 0` row starts a new
assembly named by its stripped component string (the component is never
`None` after `.astype(str)`); other rows inherit the current assembly,
with a synthetic `ASSY_<idx>` id when no header has been seen yet. -/
def assemblyIdsGo : Nat → Option String → List CoRow → List String
  | _, _, [] => []
  | idx, cur, r :: rest =>
    if r.lev == 0 then
      let a := pyStrip r.component
      a :: assemblyIdsGo (idx + 1) (some a) rest
    else
      match cur with
      | some a => a :: assemblyIdsGo (idx + 1) (some a) rest
      | none =>
        let a := "ASSY_" ++ toString idx
        a :: assemblyIdsGo (idx + 1) (some a) rest

/-- bom_utils.py's `preprocess_bom_file` (lines 17–107): coerce the
columns, assign `assembly_id` by the top-to-bottom scan and mark
`is_assembly = (lev == 0)`. -/
def preprocess_bom_file (df : List RawBomRow) : List ProcRow :=
  let rows := df.map coerceBomRow
  (rows.zip (assemblyIdsGo 0 none rows)).map (fun p =>
    ⟨p.1.lev, p.1.component, p.1.quantity, p.1.unit_price, p.1.currency,
      p.2, p.1.lev == 0⟩)

/-- Python `sorted` on strings (stable, ascending). -/
def sortedStrings (l : List String) : List String :=
  l.insertionSort (· ≤ ·)

/-- The set of component names of a component→quantity dict. -/
def keyFinset (m : List (String × ℚ)) : Finset String :=
  (m.map Prod.fst).toFinset

/-- An element of a pair's `common_components` list
(bom_utils.py line 292). -/
structure QtyDetail where
  component : String
  qty_a : ℚ
  qty_b : ℚ
  common_qty : ℚ
deriving Repr, DecidableEq

/-- An element of a pair's `unique_components_a`/`_b` lists
(bom_utils.py lines 299–301). -/
structure UniqueDetail where
  component : String
  qty : ℚ
deriving Repr, DecidableEq

/-- `_compute_quantity_aware_lists(comp_map_a, comp_map_b)`
(bom_utils.py lines 279–302): per component name (sorted union of the two
key sets), the common quantity `min(qA,qB)` when positive, and the
positive remainders `max(0, q − common)` on each side. -/
def compute_quantity_aware_lists (m₁ m₂ : List (String × ℚ)) :
    List QtyDetail × List UniqueDetail × List UniqueDetail × ℚ :=
  let keys := sortedStrings ((m₁.map Prod.fst ++ m₂.map Prod.fst).dedup)
  let common := keys.filterMap (fun k =>
    let qA := (m₁.lookup k).getD 0
    let qB := (m₂.lookup k).getD 0
    if min qA qB > 0 then some (⟨k, qA, qB, min qA qB⟩ : QtyDetail) else none)
  let uniqueA := keys.filterMap (fun k =>
    let qA := (m₁.lookup k).getD 0
    let qB := (m₂.lookup k).getD 0
    let remA := max 0 (qA - min qA qB)
    if remA > 0 then some (⟨k, remA⟩ : UniqueDetail) else none)
  let uniqueB := keys.filterMap (fun k =>
    let qA := (m₁.lookup k).getD 0
    let qB := (m₂.lookup k).getD 0
    let remB := max 0 (qB - min qA qB)
    if remB > 0 then some (⟨k, remB⟩ : UniqueDetail) else none)
  ⟨common, uniqueA, uniqueB, (common.map (·.common_qty)).sum⟩

/-- An element of `similar_pairs` (bom_utils.py lines 379–391). -/
structure BomPair where
  bom_a : String
  bom_b : String
  similarity_score : ℚ
  common_components : List QtyDetail
  unique_components_a : List UniqueDetail
  unique_components_b : List UniqueDetail
  common_count : Nat
  common_quantity_total : ℚ
  unique_count_a : Nat
  unique_count_b : Nat
deriving Repr, DecidableEq

/-- The result of bom_utils.py's (final) `compute_bom_similarity`. -/
structure BomSimOutput where
  similarity_matrix : List (String × List (String × ℚ))
  similar_pairs : List BomPair
deriving Repr, DecidableEq

/-- The presence-only Jaccard branch of bom_utils.py's final
`compute_bom_similarity` (lines 360–368): 100 when both name sets are
empty, 0 when exactly one is, otherwise `|A∩B| / |A∪B| × 100`. -/
def jaccardPct (m₁ m₂ : List (String × ℚ)) : ℚ :=
  let s₁ := keyFinset m₁
  let s₂ := keyFinset m₂
  if s₁ = ∅ ∧ s₂ = ∅ then 100
  else if s₁ = ∅ ∨ s₂ = ∅ then 0
  else ((s₁ ∩ s₂).card : ℚ) / ((s₁ ∪ s₂).card : ℚ) * 100

/-- The pair entry of bom_utils.py lines 374–391. -/
def mkBomPair (a b : String) (m₁ m₂ : List (String × ℚ)) (pct : ℚ) : BomPair :=
  match compute_quantity_aware_lists m₁ m₂ with
  | ⟨common, ua, ub, total⟩ =>
    ⟨a, b, pyRound 6 (pct / 100), common, ua, ub,
      common.length, total, ua.length, ub.length⟩

/-- bom_utils.py's **final** `compute_bom_similarity(assembly_components,
threshold)` (lines 305–396), the definition that supersedes the earlier
quantity-weighted one in the same file: standard Jaccard on component-name
sets for the score (matrix values rounded to 6 decimals, pairs emitted for
`i < j` when the percentage is `≥ threshold`), with quantity-aware detail
lists attached purely for display. -/
def compute_bom_similarity (ac : List (String × List (String × ℚ))) (threshold : ℚ) :
    BomSimOutput :=
  let assemblies := ac.map Prod.fst
  if assemblies.isEmpty then ⟨[], []⟩
  else
    let cm := fun x => (ac.lookup x).getD []
    ⟨assemblies.map (fun a =>
        (a, assemblies.map (fun b => (b, pyRound 6 (jaccardPct (cm a) (cm b)))))),
      assemblies.enum.flatMap (fun ia =>
        assemblies.enum.filterMap (fun jb =>
          if ia.1 < jb.1 ∧ jaccardPct (cm ia.2) (cm jb.2) ≥ threshold then
            some (mkBomPair ia.2 jb.2 (cm ia.2) (cm jb.2) (jaccardPct (cm ia.2) (cm jb.2)))
          else none))⟩

/-- A row of the component replacement table
(bom_utils.py lines 444–454 / 472–482). -/
structure ReplRow where
  bom_a : String
  bom_b : String
  replace_in_bom : String
  replace_out : String
  replace_in_with : String
  new_match_pct : ℚ
  delta_pct : ℚ
  direction : String
  estimated_cost_delta : ℚ
deriving Repr, DecidableEq

/-- The stable-sort order of the replacement rows
(bom_utils.py line 485): Python's stable ascending sort by the key tuple
`(-DeltaPct, estimated_cost_delta)`. -/
def replacementSortLe (r s : ReplRow) : Prop :=
  s.delta_pct < r.delta_pct ∨
    (r.delta_pct = s.delta_pct ∧ r.estimated_cost_delta ≤ s.estimated_cost_delta)

instance : DecidableRel replacementSortLe := fun r s => by
  unfold replacementSortLe; infer_instance

/-- `_compute_replacement_rows_for_pair` (bom_utils.py lines 399–486):
for every component unique to one side paired with every component unique
to the other, the hypothetical Jaccard after that single substitution, the
delta versus the baseline (the caller-supplied original percentage when
given), and the estimated cost delta `qty_in×price_in − qty_out×price_out`;
rows sorted by descending delta then ascending cost delta. -/
def replRowsForPair (bomA bomB : String) (mA mB : List (String × ℚ))
    (upm : List (String × ℚ)) (origPct : Option ℚ) : List ReplRow :=
  let sA := keyFinset mA
  let sB := keyFinset mB
  let base0 : ℚ :=
    if sA.card = 0 ∧ sB.card = 0 then 100
    else if (sA ∪ sB).card > 0 then ((sA ∩ sB).card : ℚ) / ((sA ∪ sB).card : ℚ) * 100
    else 100
  let base := match origPct with
    | some o => o
    | none => base0
  let uniqueA := (sA \ sB).sort (· ≤ ·)
  let uniqueB := (sB \ sA).sort (· ≤ ·)
  let rowsAB := uniqueA.flatMap (fun outc => uniqueB.map (fun inc =>
    let newSetA := (sA.erase outc) ∪ {inc}
    let interC := (newSetA ∩ sB).card
    let unionC := (newSetA ∪ sB).card
    let newPct : ℚ := if unionC > 0 then (interC : ℚ) / (unionC : ℚ) * 100 else 100
    let ecd := (mA.lookup outc).getD 0 * ((upm.lookup outc).getD 0) * (-1) +
      (mB.lookup inc).getD 0 * ((upm.lookup inc).getD 0)
    (⟨bomA, bomB, "Replace_In_A", outc, inc, pyRound 2 newPct,
      pyRound 2 (newPct - base), "A<-B", pyRound 6 ecd⟩ : ReplRow)))
  let rowsBA := uniqueB.flatMap (fun outc => uniqueA.map (fun inc =>
    let newSetB := (sB.erase outc) ∪ {inc}
    let interC := (sA ∩ newSetB).card
    let unionC := (sA ∪ newSetB).card
    let newPct : ℚ := if unionC > 0 then (interC : ℚ) / (unionC : ℚ) * 100 else 100
    let ecd := (mB.lookup outc).getD 0 * ((upm.lookup outc).getD 0) * (-1) +
      (mA.lookup inc).getD 0 * ((upm.lookup inc).getD 0)
    (⟨bomA, bomB, "Replace_In_B", outc, inc, pyRound 2 newPct,
      pyRound 2 (newPct - base), "B<-A", pyRound 6 ecd⟩ : ReplRow)))
  (rowsAB ++ rowsBA).insertionSort replacementSortLe

/-- `generate_component_replacement_table` (bom_utils.py lines 489–506),
as called by `analyze_bom_data` (`max_pairs=None`): concatenate the
replacement rows of every pair, passing the pair's stored score × 100 as
the baseline percentage. -/
def generate_component_replacement_table (ac : List (String × List (String × ℚ)))
    (pairs : List BomPair) (upm : List (String × ℚ)) : List ReplRow :=
  pairs.flatMap (fun p =>
    replRowsForPair p.bom_a p.bom_b ((ac.lookup p.bom_a).getD [])
      ((ac.lookup p.bom_b).getD []) upm (some (p.similarity_score * 100)))

/-- A cost-aware suggestion (bom_utils.py lines 533–546); the nested
`details` dict is flattened with a `det_` prefix. -/
structure CostSuggestion where
  type : String
  bom_replace_from : String
  bom_replace_with : String
  similarity_score : ℚ
  suggestion : String
  confidence : ℚ
  estimated_savings : ℚ
  currency : String
  det_cost_a : ℚ
  det_cost_b : ℚ
deriving Repr, DecidableEq

/-- Python's `x or y or ''` over two optional strings (an empty string is
falsy). -/
def firstTruthy (x y : Option String) : String :=
  match x with
  | some s =>
    if s = "" then
      match y with
      | some t => t
      | none => ""
    else s
  | none =>
    match y with
    | some t => t
    | none => ""

/-- bom_utils.py's `generate_replacement_suggestions(similar_pairs,
assembly_costs, currency_map, limit)` (lines 509–547): for each of the
first `limit` pairs, recommend replacing the costlier assembly by the
cheaper one, with the cost difference as estimated savings. -/
def generate_replacement_suggestions (pairs : List BomPair)
    (assembly_costs : List (String × ℚ)) (currency_map : List (String × String))
    (limit : Nat) : List CostSuggestion :=
  (pairs.take limit).map (fun p =>
    let costA := (assembly_costs.lookup p.bom_a).getD 0
    let costB := (assembly_costs.lookup p.bom_b).getD 0
    let rf := if costA > costB then p.bom_a else p.bom_b
    let rw := if costA > costB then p.bom_b else p.bom_a
    let savings := if costA > costB then costA - costB else costB - costA
    let currency := firstTruthy (currency_map.lookup p.bom_a) (currency_map.lookup p.bom_b)
    ⟨"bom_cost_consolidation", rf, rw, p.similarity_score,
      "Replace variant " ++ rf ++ " with " ++ rw ++ " to save approx " ++
        currency ++ formatFixed 2 savings,
      p.similarity_score, pyRound 6 savings, currency, pyRound 6 costA, pyRound 6 costB⟩)

/-- The `bom_statistics` block of bom_utils.py's `analyze_bom_data`
(lines 672–679). -/
structure BomStats where
  total_components : Nat
  unique_components : Nat
  total_assemblies : Nat
  total_clusters : Nat
  similar_pairs_count : Nat
  reduction_potential : ℚ
deriving Repr, DecidableEq

/-- The result of bom_utils.py's `analyze_bom_data` (lines 588–598 and
681–691).  In the fewer-than-2-assemblies branch the source returns a
literal **empty dict** for `bom_statistics`, modelled as `none`; the
populated branch yields `some` statistics. -/
structure BomResults where
  similarity_matrix : List (String × List (String × ℚ))
  similar_pairs : List BomPair
  replacement_suggestions : List CostSuggestion
  component_replacement_table : List ReplRow
  bom_statistics : Option BomStats
  clusters : List (List String)
  assembly_costs : List (String × ℚ)
  unit_price_map : List (String × ℚ)
  currency_map : List (String × String)
deriving Repr, DecidableEq

/-- The global first-non-zero unit-price map (bom_utils.py lines 606–611). -/
def buildUnitPriceMap (processed : List ProcRow) : List (String × ℚ) :=
  processed.foldl (fun m r =>
    let comp := pyStrip r.component
    if comp ≠ "" ∧ r.unit_price > 0 ∧ (m.lookup comp).getD 0 = 0 then
      m ++ [(comp, r.unit_price)]
    else m) []

/-- The per-assembly component→quantity accumulation
(bom_utils.py lines 617–623). -/
def bomBuildCompQty (rows : List ProcRow) : List (String × ℚ) :=
  rows.foldl (fun m r => assocAdd m (pyStrip r.component) r.quantity) []

/-- The component-sum fallback cost (bom_utils.py lines 619–626): per
component row, `quantity ×` (the row's own non-zero unit price, else the
global map's price for that name — Python's `x or y`). -/
def totalByComponents (rows : List ProcRow) (upm : List (String × ℚ)) : ℚ :=
  (rows.map (fun r =>
    let name := pyStrip r.component
    let price := if r.unit_price ≠ 0 then r.unit_price else (upm.lookup name).getD 0
    r.quantity * price)).sum

/-- First header row with a positive unit price (bom_utils.py lines
634–639; the loop breaks at the first hit, 0 when none). -/
def firstPositivePrice (rows : List ProcRow) : ℚ :=
  match rows.find? (fun r => r.unit_price > 0) with
  | some r => r.unit_price
  | none => 0

/-- bom_utils.py's `analyze_bom_data(bom_df, threshold)` (lines 573–691):
preprocess; with fewer than 2 distinct `assembly_id` values return the
all-empty structure; otherwise build the per-assembly maps, costs (header
price if positive, else component-sum fallback) and currency map, compute
the standard-Jaccard similarity, the replacement table, cost-aware
suggestions, greedy clusters (threshold 80) and statistics.  The source
fills `assembly_components`, `assembly_costs` and `currency_map` in a
single loop over `assemblies`; they are rendered as three traversals of
the same list. -/
def analyze_bom_data (df : List RawBomRow) (threshold : ℚ) : BomResults :=
  let processed := preprocess_bom_file df
  let component_df := processed.filter (fun r => decide (r.lev > 0))
  let assembly_headers := processed.filter (fun r => r.lev == 0)
  let assemblies := (processed.map (·.assembly_id)).dedup
  if assemblies.length < 2 then ⟨[], [], [], [], none, [], [], [], []⟩
  else
    let unit_price_map := buildUnitPriceMap processed
    let assembly_components := assemblies.map (fun a =>
      (a, bomBuildCompQty (component_df.filter (fun r => r.assembly_id == a))))
    let assembly_costs := assemblies.map (fun a =>
      let rows := component_df.filter (fun r => r.assembly_id == a)
      let header_row := assembly_headers.filter (fun r => r.assembly_id == a)
      let assembly_price := if header_row.isEmpty then 0 else firstPositivePrice header_row
      let cost := if assembly_price > 0 then assembly_price
        else totalByComponents rows unit_price_map
      (a, pyRound 6 cost))
    let currency_map := assemblies.filterMap (fun a =>
      let header_row := assembly_headers.filter (fun r => r.assembly_id == a)
      let curvals := (header_row.map (fun r => pyStrip r.currency)).dedup
      let cur := if header_row.isEmpty then "" else (curvals.head?.getD "")
      if cur ≠ "" then some (a, cur) else none)
    let sim := compute_bom_similarity assembly_components threshold
    let table := generate_component_replacement_table assembly_components
      sim.similar_pairs unit_price_map
    let suggestions := generate_replacement_suggestions sim.similar_pairs
      assembly_costs currency_map 20
    let clusters := find_assembly_clusters assemblies sim.similarity_matrix 80
    ⟨sim.similarity_matrix, sim.similar_pairs, suggestions, table,
      some ⟨component_df.length, (component_df.map (·.component)).dedup.length,
        assemblies.length, clusters.length, sim.similar_pairs.length,
        calculate_reduction_potential clusters assemblies.length⟩,
      clusters, assembly_costs, unit_price_map, currency_map⟩

/-- Modelled from the claim's words: standard Jaccard percentage over two
finite sets of component names, `|A∩B| / |A∪B| × 100`, with the stated
convention that two empty sets are 100% similar (the formula itself
already yields 0% when exactly one set is empty). -/
def jaccardSpecPct (A B : Finset String) : ℚ :=
  if A = ∅ ∧ B = ∅ then 100
  else ((A ∩ B).card : ℚ) / ((A ∪ B).card : ℚ) * 100

/-- The component-name signature of an `assembly_components` dict: every
assembly name together with its component-name list (quantities erased). -/
def keySig (ac : List (String × List (String × ℚ))) : List (String × List String) :=
  ac.map (fun p => (p.1, p.2.map Prod.fst))

/-- The stripped component names of the `lev == 0` rows, in order — the
assembly names a preprocessed table declares. -/
def lev0TrimNames (rows : List CoRow) : List String :=
  (rows.filter (fun r => r.lev == 0)).map (fun r => OptiMerge.pyStrip r.component)

/-- Modelled from the claim: the whole similarity matrix as dictated by
the spec formula — for every ordered pair of assemblies, the standard
Jaccard percentage of their component-name sets (rounded to the 6 decimal
digits the code stores). -/
def matrixSpec (ac : List (String × List (String × ℚ))) :
    List (String × List (String × ℚ)) :=
  (ac.map Prod.fst).map (fun a =>
    (a, (ac.map Prod.fst).map (fun b =>
      (b, OptiMerge.pyRound 6 (jaccardSpecPct (keyFinset ((ac.lookup a).getD []))
        (keyFinset ((ac.lookup b).getD [])))))))

/-- Modelled from the claim: the `(bom_a, bom_b, similarity_score)`
triples the spec dictates for `similar_pairs` — every index-ordered pair
whose spec-Jaccard percentage meets the threshold, scored by that
percentage divided by 100. -/
def pairScoreSpec (ac : List (String × List (String × ℚ))) (t : ℚ) :
    List (String × String × ℚ) :=
  let assemblies := ac.map Prod.fst
  if assemblies.isEmpty then []
  else
    assemblies.enum.flatMap (fun ia =>
      assemblies.enum.filterMap (fun jb =>
        if ia.1 < jb.1 ∧ jaccardSpecPct (keyFinset ((ac.lookup ia.2).getD []))
            (keyFinset ((ac.lookup jb.2).getD [])) ≥ t then
          some (ia.2, jb.2, OptiMerge.pyRound 6
            (jaccardSpecPct (keyFinset ((ac.lookup ia.2).getD []))
              (keyFinset ((ac.lookup jb.2).getD [])) / 100))
        else none))

end BomUtils

namespace BomSavings

open OptiMerge

/-- One row of the savings-calculator BOM table, after `parse_bom_file`
(bom_savings_utils.py lines 6–84) has coerced `lev` to int, `quantity`
and `std_price` to numbers and defaulted `currency`. -/
structure SavRow where
  lev : Int
  component : String
  quantity : ℚ
  std_price : ℚ
  currency : String
deriving Repr, DecidableEq

/-- One entry of an assembly's `components` list as built by
`calculate_bom_savings` (bom_savings_utils.py lines 105–131). -/
structure CompEntry where
  component : String
  quantity : ℚ
  price : ℚ
  currency : String
  level : Nat
deriving Repr, DecidableEq

/-- An element of the `assemblies` list of `calculate_bom_savings`. -/
structure Assembly where
  assembly : String
  components : List CompEntry
deriving Repr, DecidableEq

/-- The `components` entry built from a BOM row (level tag `0` for a
header row, `1` otherwise, exactly as the two literal branches write it). -/
def entryOf (r : SavRow) : CompEntry :=
  ⟨r.component, r.quantity, r.std_price, r.currency, if r.lev == 0 then 0 else 1⟩

/-- The grouping loop of `calculate_bom_savings`
(bom_savings_utils.py lines 100–138): `cur` is `current_assembly`,
`comps` is `assembly_components`.  A `lev == 0` row closes the current
assembly (if any) and starts a new one; rows seen while
`current_assembly is None` accumulate but are discarded when the first
header arrives (the `if current_assembly is not None` guard), and are
never emitted if no header ever arrives. -/
def groupGo : List SavRow → Option String → List CompEntry → List Assembly
  | [], none, _ => []
  | [], some a, comps => [⟨a, comps⟩]
  | r :: rest, cur, comps =>
    if r.lev == 0 then
      match cur with
      | none => groupGo rest (some r.component) [entryOf r]
      | some a => ⟨a, comps⟩ :: groupGo rest (some r.component) [entryOf r]
    else
      groupGo rest cur (comps ++ [entryOf r])

/-- The assembly partition computed by `calculate_bom_savings`. -/
def groupAssemblies (rows : List SavRow) : List Assembly :=
  groupGo rows none []

/-- All component entries of a grouped assembly list, in order — the
rows `calculate_bom_savings` actually accounts for. -/
def flattenComps (gs : List Assembly) : List CompEntry :=
  (gs.map (·.components)).flatten

/-- A caller-supplied replacement (value of the `replacements` dict). -/
structure Replacement where
  price_diff : ℚ
  new_component : String
  new_price : ℚ
deriving Repr, DecidableEq

/-- One element of `replaced_components_detail`
(bom_savings_utils.py lines 172–179). -/
structure ReplacedComp where
  old_component : String
  new_component : String
  quantity : ℚ
  savings : ℚ
  old_price : ℚ
  new_price : ℚ
deriving Repr, DecidableEq

/-- One element of the `results` list (bom_savings_utils.py lines 193–208). -/
structure SavingsRow where
  assembly_code : String
  component : String
  quantity : ℚ
  original_price : ℚ
  currency : String
  replaced_components : List String
  replaced_components_detail : List ReplacedComp
  total_before : ℚ
  total_after : ℚ
  savings : ℚ
  savings_percent : ℚ
deriving Repr, DecidableEq

/-- The `total_stats` summary dict (bom_savings_utils.py lines 142–148
and 210–214). -/
structure SavingsSummary where
  assemblies_processed : Nat
  assemblies_with_savings : Nat
  total_cost_before : ℚ
  total_savings : ℚ
  components_replaced : Nat
  total_cost_after : ℚ
  avg_savings_percent : ℚ
deriving Repr, DecidableEq

/-- The human-readable `"old → new: £amount"` string of
`replaced_components` (bom_savings_utils.py line 200). -/
def replacedString (rc : ReplacedComp) : String :=
  rc.old_component ++ " → " ++ rc.new_component ++ ": £" ++ formatFixed 2 rc.savings

/-- The per-assembly body of the savings loop
(bom_savings_utils.py lines 150–208).  `assembly_data` is
`components[0]`; the empty-components case cannot arise for assemblies
produced by the grouping (the source would raise `IndexError` there) and
is mapped to an all-zero row. -/
def processAssembly (replacements : List (String × Replacement)) (g : Assembly) : SavingsRow :=
  match g.components with
  | [] => ⟨g.assembly, "", 0, 0, "", [], [], 0, 0, 0, 0⟩
  | hd :: comps =>
    let replaced : List ReplacedComp := comps.filterMap (fun c =>
      match replacements.lookup c.component with
      | some rep =>
          some ⟨c.component, rep.new_component, c.quantity,
                rep.price_diff * c.quantity, c.price, rep.new_price⟩
      | none => none)
    let component_savings := (replaced.map (·.savings)).sum
    let before := hd.price
    let after := before - component_savings
    let pct := if before > 0 then component_savings / before * 100 else 0
    ⟨g.assembly, hd.component, hd.quantity, before, hd.currency,
      replaced.map replacedString, replaced, before, after, component_savings, pct⟩

/-- `calculate_bom_savings(bom_df, replacements)`
(bom_savings_utils.py lines 86–216): groups rows into assemblies, applies
the replacement map to each assembly's component rows and aggregates the
summary statistics (the loop's running accumulators are rendered as sums
over the per-assembly results). -/
def calculate_bom_savings (rows : List SavRow) (replacements : List (String × Replacement)) :
    List SavingsRow × SavingsSummary :=
  let gs := groupAssemblies rows
  let results := gs.map (processAssembly replacements)
  let total_cost_before := (results.map (·.total_before)).sum
  let total_savings := (results.map (·.savings)).sum
  ⟨results,
    { assemblies_processed := gs.length
      assemblies_with_savings := results.countP (fun r => r.savings > 0)
      total_cost_before := total_cost_before
      total_savings := total_savings
      components_replaced := (results.map (·.replaced_components_detail.length)).sum
      total_cost_after := total_cost_before - total_savings
      avg_savings_percent :=
        if total_cost_before > 0 then total_savings / total_cost_before * 100 else 0 }⟩

end BomSavings

namespace Inputs

/-- A two-row BOM whose first row precedes any level-0 header and whose
level-0 header has a whitespace-only component. -/
def c3df : List BomUtils.RawBomRow :=
  [⟨some 1, "x", none, none, ""⟩, ⟨some 0, " ", none, none, ""⟩]

/-- A savings BOM with one component row *before* the first level-0
header. -/
def c5rows : List BomSavings.SavRow :=
  [⟨1, "X", 1, 5, "GBP"⟩, ⟨0, "A", 1, 10, "GBP"⟩]

/-- Two single-component assemblies with equal component sets `{x}` but
different quantities (1 vs 2). -/
def c1df : List MainApp.MainRow :=
  [⟨some 0, "A", 0⟩, ⟨some 1, "x", 1⟩, ⟨some 0, "B", 0⟩, ⟨some 1, "x", 2⟩]

/-- The same BOM with the second assembly's quantity changed to 1 (the
component-name sets are unchanged). -/
def c1df' : List MainApp.MainRow :=
  [⟨some 0, "A", 0⟩, ⟨some 1, "x", 1⟩, ⟨some 0, "B", 0⟩, ⟨some 1, "x", 1⟩]

/-- Two identical single-component assemblies (100% similar on any
measure). -/
def c4df : List MainApp.MainRow :=
  [⟨some 0, "A", 0⟩, ⟨some 1, "x", 1⟩, ⟨some 0, "B", 0⟩, ⟨some 1, "x", 1⟩]

end Inputs

-- ## Theorems

/-- C8: in `perform_dimensional_clustering`, a caller-supplied
`n_clusters` is used clamped to `[2, number of rows]` (so it is used
verbatim exactly when it already lies in that range, and is pinned to the
violated bound otherwise), and an absent `n_clusters` resolves to
`min(5, max(2, rows // 3))`, which always lies in `[2, 5]`. -/
theorem claim_C8_cluster_count (n : ℤ) (rows : ℕ) (h : 2 ≤ rows) :
    (2 ≤ ClusteringUtils.resolve_n_clusters (some n) rows ∧
      ClusteringUtils.resolve_n_clusters (some n) rows ≤ rows ∧
      (2 ≤ n → n ≤ rows → ClusteringUtils.resolve_n_clusters (some n) rows = n) ∧
      (n ≤ 2 → ClusteringUtils.resolve_n_clusters (some n) rows = 2) ∧
      ((rows : ℤ) ≤ n → ClusteringUtils.resolve_n_clusters (some n) rows = rows)) ∧
    (ClusteringUtils.resolve_n_clusters none rows = ((min 5 (max 2 (rows / 3)) : ℕ) : ℤ) ∧
      2 ≤ ClusteringUtils.resolve_n_clusters none rows ∧
      ClusteringUtils.resolve_n_clusters none rows ≤ 5) := by
  have h2 : (2 : ℤ) ≤ (rows : ℤ) := by exact_mod_cast h
  refine ⟨⟨le_max_left _ _, ?_, ?_, ?_, ?_⟩, rfl, ?_, ?_⟩
  · exact max_le h2 (min_le_right _ _)
  · intro hn1 hn2
    show max 2 (min n (rows : ℤ)) = n
    rw [min_eq_left hn2, max_eq_right hn1]
  · intro hn
    exact max_eq_left (le_trans (min_le_left _ _) hn)
  · intro hn
    show max 2 (min n (rows : ℤ)) = (rows : ℤ)
    rw [min_eq_right hn, max_eq_right h2]
  · show (2 : ℤ) ≤ ((min 5 (max 2 (rows / 3)) : ℕ) : ℤ)
    have hb : 2 ≤ (min 5 (max 2 (rows / 3)) : ℕ) := le_min (by norm_num) (le_max_left _ _)
    exact_mod_cast hb
  · show ((min 5 (max 2 (rows / 3)) : ℕ) : ℤ) ≤ 5
    have hb : (min 5 (max 2 (rows / 3)) : ℕ) ≤ 5 := min_le_left _ _
    exact_mod_cast hb

/-- C8 witness: with 5 rows, a requested count of 7 is clamped to 5. -/
theorem claim_C8_cluster_count_witness :
    2 ≤ 5 ∧ ClusteringUtils.resolve_n_clusters (some 7) 5 = 5 :=
  ⟨by decide, (claim_C8_cluster_count 7 5 (by decide)).1.2.2.2.2 (by decide)⟩

/-- C2 counterexample: with an empty database and an id present only in
the in-memory cache, the handler still fails with 404 — it does not fall
back to the cache as the claim states. -/
theorem claim_C2_counterexample :
    MainApp.get_analysis (fun _ => none)
        (fun i => if i = "a1" then some "cached" else none) "a1" =
      Except.error 404 ∧
    (fun i => if i = "a1" then some "cached" else none) "a1" = some "cached" :=
  ⟨rfl, by decide⟩

/-- C2 (amended): the `GET /analysis/{analysis_id}` handler queries only
the database: its result is independent of the in-memory cache, it fails
with 404 exactly when no document with that id exists, and when a document
exists it returns the whole document with `_id` stringified (the raw
payload is not unwrapped). -/
theorem claim_C2_get_analysis (db : String → Option MainApp.AnalysisDoc)
    (c₁ c₂ : String → Option String) (id : String) :
    MainApp.get_analysis db c₁ id = MainApp.get_analysis db c₂ id ∧
    (MainApp.get_analysis db c₁ id = Except.error 404 ↔ db id = none) ∧
    (∀ d, db id = some d →
      MainApp.get_analysis db c₁ id =
        Except.ok ⟨toString d.oid, d.id, d.type, d.date, d.status, d.raw⟩) := by
  unfold MainApp.get_analysis
  cases h : db id with
  | none => simp
  | some d => simp

/-- C2 witness: a concrete stored document is returned with its `_id`
stringified. -/
theorem claim_C2_get_analysis_witness :
    (fun i => if i = "a1" then
        some (⟨5, "a1", "BOM Similarity Analysis", "2026-01-01", "completed", "payload"⟩ :
          MainApp.AnalysisDoc)
      else none) "a1" =
      some ⟨5, "a1", "BOM Similarity Analysis", "2026-01-01", "completed", "payload"⟩ ∧
    MainApp.get_analysis
        (fun i => if i = "a1" then
          some (⟨5, "a1", "BOM Similarity Analysis", "2026-01-01", "completed", "payload"⟩ :
            MainApp.AnalysisDoc)
        else none)
        (fun _ => none) "a1" =
      Except.ok ⟨"5", "a1", "BOM Similarity Analysis", "2026-01-01", "completed", "payload"⟩ :=
  ⟨by decide,
    (claim_C2_get_analysis _ (fun _ => none) (fun _ => none) "a1").2.2
      ⟨5, "a1", "BOM Similarity Analysis", "2026-01-01", "completed", "payload"⟩
      (by decide)⟩

/-- C4 (amended): the `/analyze/bom-similarity/` endpoint multiplies
*every* caller-supplied threshold by 100 before invoking the BOM
analysis; in particular it agrees with the claimed fraction handling on
thresholds in [0, 1] (but does not pass values greater than 1 through
unchanged — see the counterexample). -/
theorem claim_C4_threshold (df : List MainApp.MainRow) (t : ℚ) :
    MainApp.analyze_bom_similarity_endpoint df t = MainApp.analyze_bom_data df (t * 100) ∧
    (0 ≤ t → t ≤ 1 → MainApp.analyze_bom_similarity_endpoint df t =
      MainApp.analyze_bom_data df (MainApp.specThresholdPercent t)) := by
  refine ⟨rfl, fun h0 h1 => ?_⟩
  unfold MainApp.specThresholdPercent
  rw [if_neg (by linarith)]
  rfl

/-- C4 witness: at threshold 1/2 the endpoint matches the claimed
conversion. -/
theorem claim_C4_threshold_witness :
    (0 : ℚ) ≤ 1/2 ∧ (1 : ℚ)/2 ≤ 1 ∧
    MainApp.analyze_bom_similarity_endpoint [] (1/2) =
      MainApp.analyze_bom_data [] (MainApp.specThresholdPercent (1/2)) :=
  ⟨by norm_num, by norm_num, (claim_C4_threshold [] (1/2)).2 (by norm_num) (by norm_num)⟩

/-- C3 counterexample: with a component row before the first level-0 row
and a level-0 row whose component strips to the empty string, the output
has an empty `assembly_id` (second row) and 2 distinct `assembly_id`
values against a single `lev == 0` row. -/
theorem claim_C3_counterexample :
    ((BomUtils.preprocess_bom_file Inputs.c3df).map (·.assembly_id)) = ["ASSY_0", ""] ∧
    ((BomUtils.preprocess_bom_file Inputs.c3df).map (·.assembly_id)).dedup.length = 2 ∧
    (BomUtils.preprocess_bom_file Inputs.c3df).countP (fun r => r.lev == 0) = 1 := by
  decide

/-- C5 counterexample: the input has rows `X` (level 1, before any
header) and `A` (level 0), but `calculate_bom_savings` produces a single
assembly containing only `A` — the pre-header row `X` belongs to no
assembly in the output, contradicting the claim that every input row
(including rows preceding the first level-0 row) belongs to exactly one
assembly. -/
theorem claim_C5_counterexample :
    Inputs.c5rows.map (·.component) = ["X", "A"] ∧
    ((BomSavings.groupAssemblies Inputs.c5rows).map
      (fun g => g.components.map (·.component))) = [["A"]] ∧
    (BomSavings.calculate_bom_savings Inputs.c5rows []).1.map
      (fun r => (r.assembly_code, r.component)) = [("A", "A")] := by
  decide

theorem c4_assemblies : MainApp.assembliesOf Inputs.c4df = ["A", "B"] := by decide

theorem c4_components :
    MainApp.assemblyComponents Inputs.c4df = [("A", [("x", 1)]), ("B", [("x", 1)])] := by
  decide

theorem sim_x1_x1 : MainApp.weightedSim [("x", 1)] [("x", 1)] = 100 := by
  norm_num [MainApp.weightedSim, List.lookup]

theorem c4_lookup_A :
    (List.lookup "A" [("A", [("x", (1:ℚ))]), ("B", [("x", 1)])]).getD [] = [("x", 1)] := by
  decide

theorem c4_lookup_B :
    (List.lookup "B" [("A", [("x", (1:ℚ))]), ("B", [("x", 1)])]).getD [] = [("x", 1)] := by
  decide

theorem c4_pairs (t : ℚ) :
    (MainApp.analyze_bom_data Inputs.c4df t).similar_pairs =
      if 100 > t then [MainApp.mainPairDetail "A" "B" [("x", 1)] [("x", 1)] 100] else [] := by
  have he : (["A", "B"].enum) = [(0, "A"), (1, "B")] := by decide
  by_cases h100 : (100 : ℚ) > t
  · rw [if_pos h100]
    simp only [MainApp.analyze_bom_data, c4_assemblies, c4_components,
      MainApp.compute_bom_similarity, List.map_cons, List.map_nil, he,
      List.flatMap_cons, List.flatMap_nil, List.filterMap_cons, List.filterMap_nil,
      c4_lookup_A, c4_lookup_B, sim_x1_x1]
    norm_num [h100]
  · rw [if_neg h100]
    simp only [MainApp.analyze_bom_data, c4_assemblies, c4_components,
      MainApp.compute_bom_similarity, List.map_cons, List.map_nil, he,
      List.flatMap_cons, List.flatMap_nil, List.filterMap_cons, List.filterMap_nil,
      c4_lookup_A, c4_lookup_B, sim_x1_x1]
    norm_num [h100]

/-- C4 counterexample: at threshold 2 (greater than 1), the endpoint does
*not* pass the value through as a percentage: the two identical assemblies
of `c4df` are 100% similar, so the claimed behaviour (threshold 2 percent)
would report a similar pair, but the endpoint multiplies 2 by 100 and,
comparing 100 > 200, reports none. -/
theorem claim_C4_counterexample :
    (MainApp.analyze_bom_similarity_endpoint Inputs.c4df 2).similar_pairs = [] ∧
    (MainApp.analyze_bom_data Inputs.c4df (MainApp.specThresholdPercent 2)).similar_pairs ≠ [] := by
  constructor
  · show (MainApp.analyze_bom_data Inputs.c4df (2 * 100)).similar_pairs = []
    rw [c4_pairs]
    norm_num
  · have hs : MainApp.specThresholdPercent 2 = 2 := by
      norm_num [MainApp.specThresholdPercent]
    rw [hs, c4_pairs]
    norm_num

theorem roundHalfEven_intCast (n : ℤ) : OptiMerge.roundHalfEven (n : ℚ) = n := by
  simp only [OptiMerge.roundHalfEven, Int.floor_intCast]
  norm_num

theorem pyRound_of_int (nd : ℕ) (q : ℚ) (n : ℤ) (h : q * 10 ^ nd = (n : ℚ)) :
    OptiMerge.pyRound nd q = (n : ℚ) / 10 ^ nd := by
  unfold OptiMerge.pyRound
  rw [h, roundHalfEven_intCast]

theorem pyRound2_50 : OptiMerge.pyRound 2 (50 : ℚ) = 50 := by
  rw [pyRound_of_int 2 50 5000 (by norm_num)]
  norm_num

theorem pyRound2_100 : OptiMerge.pyRound 2 (100 : ℚ) = 100 := by
  rw [pyRound_of_int 2 100 10000 (by norm_num)]
  norm_num

theorem sim_x1_x2 : MainApp.weightedSim [("x", 1)] [("x", 2)] = 50 := by
  norm_num [MainApp.weightedSim, List.lookup]

theorem sim_x2_x1 : MainApp.weightedSim [("x", 2)] [("x", 1)] = 50 := by
  norm_num [MainApp.weightedSim, List.lookup]

theorem sim_x2_x2 : MainApp.weightedSim [("x", 2)] [("x", 2)] = 100 := by
  norm_num [MainApp.weightedSim, List.lookup]

theorem c1_assemblies : MainApp.assembliesOf Inputs.c1df = ["A", "B"] := by decide

theorem c1_components :
    MainApp.assemblyComponents Inputs.c1df = [("A", [("x", 1)]), ("B", [("x", 2)])] := by
  decide

theorem c1_lookup_A :
    (List.lookup "A" [("A", [("x", (1:ℚ))]), ("B", [("x", 2)])]).getD [] = [("x", 1)] := by
  decide

theorem c1_lookup_B :
    (List.lookup "B" [("A", [("x", (1:ℚ))]), ("B", [("x", 2)])]).getD [] = [("x", 2)] := by
  decide

theorem c1_matrix : (MainApp.analyze_bom_data Inputs.c1df 70).similarity_matrix =
    [("A", [("A", 100), ("B", 50)]), ("B", [("A", 50), ("B", 100)])] := by
  simp only [MainApp.analyze_bom_data, c1_assemblies, c1_components,
    MainApp.compute_bom_similarity, List.map_cons, List.map_nil,
    c1_lookup_A, c1_lookup_B, sim_x1_x1, sim_x1_x2, sim_x2_x1, sim_x2_x2,
    pyRound2_50, pyRound2_100]
  norm_num

theorem c1'_assemblies : MainApp.assembliesOf Inputs.c1df' = ["A", "B"] := by decide

theorem c1'_components :
    MainApp.assemblyComponents Inputs.c1df' = [("A", [("x", 1)]), ("B", [("x", 1)])] := by
  decide

theorem c1'_matrix : (MainApp.analyze_bom_data Inputs.c1df' 70).similarity_matrix =
    [("A", [("A", 100), ("B", 100)]), ("B", [("A", 100), ("B", 100)])] := by
  simp only [MainApp.analyze_bom_data, c1'_assemblies, c1'_components,
    MainApp.compute_bom_similarity, List.map_cons, List.map_nil,
    c4_lookup_A, c4_lookup_B, sim_x1_x1, pyRound2_100]
  norm_num

/-- C1 counterexample: on the `/analyze/bom-similarity/` endpoint's
analysis path (main.py's own quantity-weighted `compute_bom_similarity`),
the similarity-matrix entry for two assemblies with the *same* component
name set `{x}` but quantities 1 vs 2 is 50 — not the standard-Jaccard
100 the claim requires — and changing only the quantity (2 → 1) changes
the entry to 100, contradicting the claimed quantity-invariance.  The
endpoint call at the default threshold 0.7 is exactly this analysis. -/
theorem claim_C1_counterexample :
    OptiMerge.matrixEntry (MainApp.analyze_bom_data Inputs.c1df 70).similarity_matrix "A" "B"
      = 50 ∧
    OptiMerge.matrixEntry (MainApp.analyze_bom_data Inputs.c1df' 70).similarity_matrix "A" "B"
      = 100 ∧
    Inputs.c1df.map (fun r => (r.lev, r.component)) =
      Inputs.c1df'.map (fun r => (r.lev, r.component)) ∧
    MainApp.analyze_bom_similarity_endpoint Inputs.c1df (7/10) =
      MainApp.analyze_bom_data Inputs.c1df 70 ∧
    (50 : ℚ) ≠ 100 := by
  refine ⟨?_, ?_, by decide, ?_, by norm_num⟩
  · rw [c1_matrix]; decide
  · rw [c1'_matrix]; decide
  · show MainApp.analyze_bom_data Inputs.c1df (7/10 * 100) = MainApp.analyze_bom_data Inputs.c1df 70
    rw [show ((7:ℚ)/10 * 100) = 70 by norm_num]

theorem dedup_map_filter_length_le {α β : Type} [DecidableEq β]
    (l : List α) (p : α → Bool) (f : α → β) :
    ((l.filter p).map f).dedup.length ≤ (l.map f).dedup.length := by
  rw [← List.card_toFinset, ← List.card_toFinset]
  apply Finset.card_le_card
  intro x hx
  simp only [List.mem_toFinset, List.mem_map] at hx ⊢
  obtain ⟨a, ha, rfl⟩ := hx
  exact ⟨a, (List.mem_filter.mp ha).1, rfl⟩

/-- C7: on a BOM table whose preprocessed rows contain fewer than 2
distinct assemblies, both `analyze_bom_data` entry points return their
all-empty result structure without error: bom_utils.py's returns the
literal all-empty dict (whose `bom_statistics` is the *empty* dict,
modelled `none`), and main.py's returns `create_empty_bom_results()`,
whose statistics are all zero. -/
theorem claim_C7_empty_results (df₁ : List BomUtils.RawBomRow) (df₂ : List MainApp.MainRow)
    (t₁ t₂ : ℚ)
    (h₁ : ((BomUtils.preprocess_bom_file df₁).map (·.assembly_id)).dedup.length < 2)
    (h₂ : ((MainApp.preprocess_bom_file df₂).map (·.assembly_id)).dedup.length < 2) :
    BomUtils.analyze_bom_data df₁ t₁ = ⟨[], [], [], [], none, [], [], [], []⟩ ∧
    MainApp.analyze_bom_data df₂ t₂ = MainApp.create_empty_bom_results ∧
    MainApp.create_empty_bom_results.bom_statistics = ⟨0, 0, 0, 0, 0, 0⟩ := by
  refine ⟨?_, ?_, rfl⟩
  · simp only [BomUtils.analyze_bom_data]
    rw [if_pos h₁]
  · have hle : (MainApp.assembliesOf df₂).length ≤
        ((MainApp.preprocess_bom_file df₂).map (·.assembly_id)).dedup.length :=
      dedup_map_filter_length_le _ _ _
    simp only [MainApp.analyze_bom_data]
    rw [if_pos (lt_of_le_of_lt hle h₂)]

/-- C7 witness: single-assembly inputs hit the empty-result branch. -/
theorem claim_C7_empty_results_witness :
    (((BomUtils.preprocess_bom_file [⟨some 0, "A", none, none, ""⟩]).map
        (·.assembly_id)).dedup.length < 2) ∧
    (((MainApp.preprocess_bom_file [⟨some 0, "A", 0⟩]).map
        (·.assembly_id)).dedup.length < 2) ∧
    BomUtils.analyze_bom_data [⟨some 0, "A", none, none, ""⟩] 70 =
      ⟨[], [], [], [], none, [], [], [], []⟩ ∧
    MainApp.analyze_bom_data [⟨some 0, "A", 0⟩] 70 = MainApp.create_empty_bom_results :=
  ⟨by decide, by decide,
    (claim_C7_empty_results [⟨some 0, "A", none, none, ""⟩] [⟨some 0, "A", 0⟩] 70 70
      (by decide) (by decide)).1,
    (claim_C7_empty_results [⟨some 0, "A", none, none, ""⟩] [⟨some 0, "A", 0⟩] 70 70
      (by decide) (by decide)).2.1⟩

theorem assy_prefix_ne_empty (s : String) : "ASSY_" ++ s ≠ "" := by
  intro h
  have hd := congrArg String.data h
  simp [String.data_append] at hd

theorem assemblyIdsGo_length (rows : List BomUtils.CoRow) :
    ∀ idx cur, (BomUtils.assemblyIdsGo idx cur rows).length = rows.length := by
  induction rows with
  | nil => intro idx cur; rfl
  | cons r rest ih =>
    intro idx cur
    by_cases h : (r.lev == 0)
    · simp only [BomUtils.assemblyIdsGo, if_pos h, List.length_cons, ih]
    · cases cur with
      | some a => simp only [BomUtils.assemblyIdsGo, if_neg h, List.length_cons, ih]
      | none => simp only [BomUtils.assemblyIdsGo, if_neg h, List.length_cons, ih]

theorem assemblyIdsGo_mem_some (rows : List BomUtils.CoRow) :
    ∀ idx a x, x ∈ BomUtils.assemblyIdsGo idx (some a) rows →
      x = a ∨ x ∈ BomUtils.lev0TrimNames rows := by
  induction rows with
  | nil => intro idx a x hx; cases hx
  | cons r rest ih =>
    intro idx a x hx
    by_cases h : (r.lev == 0)
    · simp only [BomUtils.assemblyIdsGo, if_pos h] at hx
      rcases List.mem_cons.mp hx with rfl | hx'
      · right
        simp [BomUtils.lev0TrimNames, List.filter_cons, h]
      · rcases ih _ _ _ hx' with rfl | hmem
        · right
          simp [BomUtils.lev0TrimNames, List.filter_cons, h]
        · right
          simp only [BomUtils.lev0TrimNames, List.filter_cons, h, if_pos, List.map_cons]
          exact List.mem_cons_of_mem _ hmem
    · have hnames : BomUtils.lev0TrimNames (r :: rest) = BomUtils.lev0TrimNames rest := by
        simp [BomUtils.lev0TrimNames, List.filter_cons, h]
      simp only [BomUtils.assemblyIdsGo, if_neg h] at hx
      rcases List.mem_cons.mp hx with rfl | hx'
      · exact Or.inl rfl
      · rw [hnames]
        exact ih _ _ _ hx'

theorem lev0TrimNames_subset_ids (rows : List BomUtils.CoRow) :
    ∀ idx cur x, x ∈ BomUtils.lev0TrimNames rows →
      x ∈ BomUtils.assemblyIdsGo idx cur rows := by
  induction rows with
  | nil => intro idx cur x hx; cases hx
  | cons r rest ih =>
    intro idx cur x hx
    by_cases h : (r.lev == 0)
    · simp only [BomUtils.lev0TrimNames, List.filter_cons, h, if_pos, List.map_cons] at hx
      simp only [BomUtils.assemblyIdsGo, if_pos h]
      rcases List.mem_cons.mp hx with rfl | hx'
      · exact List.mem_cons_self _ _
      · exact List.mem_cons_of_mem _ (ih _ _ _ hx')
    · have hnames : BomUtils.lev0TrimNames (r :: rest) = BomUtils.lev0TrimNames rest := by
        simp [BomUtils.lev0TrimNames, List.filter_cons, h]
      rw [hnames] at hx
      cases cur with
      | some a =>
        simp only [BomUtils.assemblyIdsGo, if_neg h]
        exact List.mem_cons_of_mem _ (ih _ _ _ hx)
      | none =>
        simp only [BomUtils.assemblyIdsGo, if_neg h]
        exact List.mem_cons_of_mem _ (ih _ _ _ hx)

theorem assemblyIdsGo_ne_empty (rows : List BomUtils.CoRow) :
    ∀ idx cur, (∀ a, cur = some a → a ≠ "") →
      (∀ r ∈ rows, r.lev = 0 → OptiMerge.pyStrip r.component ≠ "") →
      ∀ x ∈ BomUtils.assemblyIdsGo idx cur rows, x ≠ "" := by
  induction rows with
  | nil => intro idx cur _ _ x hx; cases hx
  | cons r rest ih =>
    intro idx cur hcur hrows x hx
    by_cases h : (r.lev == 0)
    · simp only [BomUtils.assemblyIdsGo, if_pos h] at hx
      have hr : OptiMerge.pyStrip r.component ≠ "" :=
        hrows r (List.mem_cons_self _ _) (by exact beq_iff_eq.mp h)
      rcases List.mem_cons.mp hx with rfl | hx'
      · exact hr
      · exact ih _ _ (fun a ha => by injection ha with ha'; exact ha' ▸ hr)
          (fun r' hr' => hrows r' (List.mem_cons_of_mem _ hr')) x hx'
    · cases cur with
      | some a =>
        simp only [BomUtils.assemblyIdsGo, if_neg h] at hx
        rcases List.mem_cons.mp hx with rfl | hx'
        · exact hcur x rfl
        · exact ih _ _ hcur (fun r' hr' => hrows r' (List.mem_cons_of_mem _ hr')) x hx'
      | none =>
        simp only [BomUtils.assemblyIdsGo, if_neg h] at hx
        rcases List.mem_cons.mp hx with rfl | hx'
        · exact assy_prefix_ne_empty _
        · exact ih _ _ (fun a ha => by injection ha with ha'; exact ha' ▸ assy_prefix_ne_empty _)
            (fun r' hr' => hrows r' (List.mem_cons_of_mem _ hr')) x hx'

/-- C3 (amended): `preprocess_bom_file` assigns every input row an
`assembly_id` (the output has one row per input row), `is_assembly` holds
exactly on coerced `lev == 0` rows, every `assembly_id` is non-empty
provided every level-0 row's stripped component is non-empty, and —
provided additionally the first row is a level-0 row (otherwise a
synthetic `ASSY_<idx>` id adds one extra value) and the stripped level-0
component names are pairwise distinct — the number of distinct
`assembly_id` values equals the number of `lev == 0` rows. -/
theorem claim_C3_assembly_invariants (df : List BomUtils.RawBomRow)
    (hfirst : ∀ r ∈ (df.map BomUtils.coerceBomRow).take 1, r.lev = 0)
    (hnodup : (BomUtils.lev0TrimNames (df.map BomUtils.coerceBomRow)).Nodup)
    (hne : ∀ r ∈ df.map BomUtils.coerceBomRow, r.lev = 0 →
      OptiMerge.pyStrip r.component ≠ "") :
    (BomUtils.preprocess_bom_file df).length = df.length ∧
    (∀ p ∈ BomUtils.preprocess_bom_file df,
      (p.is_assembly = true ↔ p.lev = 0) ∧ p.assembly_id ≠ "") ∧
    ((BomUtils.preprocess_bom_file df).map (·.assembly_id)).dedup.length =
      (BomUtils.preprocess_bom_file df).countP (fun r => r.lev == 0) := by
  set rows := df.map BomUtils.coerceBomRow with hrows
  have hlen : (BomUtils.assemblyIdsGo 0 none rows).length = rows.length :=
    assemblyIdsGo_length rows 0 none
  have hprep : BomUtils.preprocess_bom_file df =
      (rows.zip (BomUtils.assemblyIdsGo 0 none rows)).map (fun p =>
        ⟨p.1.lev, p.1.component, p.1.quantity, p.1.unit_price, p.1.currency,
          p.2, p.1.lev == 0⟩) := rfl
  refine ⟨?_, ?_, ?_⟩
  · rw [hprep, List.length_map, List.length_zip, hlen, Nat.min_self, hrows, List.length_map]
  · intro p hp
    rw [hprep] at hp
    obtain ⟨pair, hpair, rfl⟩ := List.mem_map.mp hp
    refine ⟨beq_iff_eq, ?_⟩
    have h2 : pair.2 ∈ BomUtils.assemblyIdsGo 0 none rows := (List.of_mem_zip hpair).2
    exact assemblyIdsGo_ne_empty rows 0 none (fun a ha => by cases ha) hne pair.2 h2
  · have hmapids : (BomUtils.preprocess_bom_file df).map (·.assembly_id) =
        BomUtils.assemblyIdsGo 0 none rows := by
      rw [hprep, List.map_map]
      conv_rhs => rw [← List.map_snd_zip rows (BomUtils.assemblyIdsGo 0 none rows) hlen.le]
      rfl
    have hcountP : (BomUtils.preprocess_bom_file df).countP (fun r => r.lev == 0) =
        rows.countP (fun r => r.lev == 0) := by
      rw [hprep, List.countP_map]
      conv_rhs => rw [← List.map_fst_zip rows (BomUtils.assemblyIdsGo 0 none rows) hlen.ge]
      rw [List.countP_map]
      rfl
    have hnames_len : rows.countP (fun r => r.lev == 0) =
        (BomUtils.lev0TrimNames rows).length := by
      simp [BomUtils.lev0TrimNames, List.countP_eq_length_filter]
    have hfin : (BomUtils.assemblyIdsGo 0 none rows).toFinset =
        (BomUtils.lev0TrimNames rows).toFinset := by
      cases hr : rows with
      | nil => simp [BomUtils.assemblyIdsGo, BomUtils.lev0TrimNames]
      | cons r rest =>
        have hl0 : r.lev = 0 := by
          apply hfirst r
          rw [hr]
          simp
        have hbeq : (r.lev == 0) = true := beq_iff_eq.mpr hl0
        ext x
        simp only [List.mem_toFinset]
        constructor
        · intro hx
          simp only [BomUtils.assemblyIdsGo, if_pos hbeq] at hx
          rcases List.mem_cons.mp hx with rfl | hx'
          · simp [BomUtils.lev0TrimNames, List.filter_cons, hbeq]
          · rcases assemblyIdsGo_mem_some rest _ _ _ hx' with rfl | hmem
            · simp [BomUtils.lev0TrimNames, List.filter_cons, hbeq]
            · simp only [BomUtils.lev0TrimNames, List.filter_cons, hbeq, if_pos,
                List.map_cons]
              exact List.mem_cons_of_mem _ hmem
        · intro hx
          exact lev0TrimNames_subset_ids _ _ _ _ hx
    rw [hmapids, hcountP, ← List.card_toFinset, hfin, List.card_toFinset,
      List.Nodup.dedup hnodup, hnames_len]

/-- C3 witness: a table whose first row is a level-0 header `A`, with one
component row and a second header `B`. -/
theorem claim_C3_assembly_invariants_witness :
    (∀ r ∈ (([⟨some 0, "A", none, none, ""⟩, ⟨some 1, "p", none, none, ""⟩,
        ⟨some 0, "B", none, none, ""⟩] : List BomUtils.RawBomRow).map
        BomUtils.coerceBomRow).take 1, r.lev = 0) ∧
    ((BomUtils.preprocess_bom_file [⟨some 0, "A", none, none, ""⟩,
        ⟨some 1, "p", none, none, ""⟩, ⟨some 0, "B", none, none, ""⟩]).map
      (·.assembly_id)).dedup.length =
      (BomUtils.preprocess_bom_file [⟨some 0, "A", none, none, ""⟩,
        ⟨some 1, "p", none, none, ""⟩, ⟨some 0, "B", none, none, ""⟩]).countP
        (fun r => r.lev == 0) :=
  ⟨by decide,
    (claim_C3_assembly_invariants
      [⟨some 0, "A", none, none, ""⟩, ⟨some 1, "p", none, none, ""⟩,
        ⟨some 0, "B", none, none, ""⟩]
      (by decide) (by decide) (by decide)).2.2⟩

theorem groupGo_flatten_some (rows : List BomSavings.SavRow) :
    ∀ a comps, BomSavings.flattenComps (BomSavings.groupGo rows (some a) comps) =
      comps ++ rows.map BomSavings.entryOf := by
  induction rows with
  | nil => intro a comps; simp [BomSavings.groupGo, BomSavings.flattenComps]
  | cons r rest ih =>
    intro a comps
    by_cases h : (r.lev == 0)
    · simp only [BomSavings.groupGo, if_pos h, BomSavings.flattenComps, List.map_cons,
        List.flatten_cons]
      rw [show ((BomSavings.groupGo rest (some r.component) [BomSavings.entryOf r]).map
          (·.components)).flatten =
          BomSavings.flattenComps (BomSavings.groupGo rest (some r.component)
            [BomSavings.entryOf r]) from rfl, ih]
      simp
    · simp only [BomSavings.groupGo, if_neg h]
      rw [ih]
      simp

theorem groupGo_flatten_none (rows : List BomSavings.SavRow) :
    ∀ comps, BomSavings.flattenComps (BomSavings.groupGo rows none comps) =
      (rows.dropWhile (fun r => !(r.lev == 0))).map BomSavings.entryOf := by
  induction rows with
  | nil => intro comps; simp [BomSavings.groupGo, BomSavings.flattenComps]
  | cons r rest ih =>
    intro comps
    by_cases h : (r.lev == 0)
    · rw [show BomSavings.groupGo (r :: rest) none comps =
            BomSavings.groupGo rest (some r.component) [BomSavings.entryOf r] from by
          simp [BomSavings.groupGo, h],
        groupGo_flatten_some,
        show List.dropWhile (fun r => !(r.lev == 0)) (r :: rest) = r :: rest from by
          simp [List.dropWhile_cons, h]]
      simp
    · rw [show BomSavings.groupGo (r :: rest) none comps =
            BomSavings.groupGo rest none (comps ++ [BomSavings.entryOf r]) from by
          simp [BomSavings.groupGo, h],
        ih,
        show List.dropWhile (fun r => !(r.lev == 0)) (r :: rest) =
            List.dropWhile (fun r => !(r.lev == 0)) rest from by
          simp [List.dropWhile_cons, h]]

theorem groupGo_length_some (rows : List BomSavings.SavRow) :
    ∀ a comps, (BomSavings.groupGo rows (some a) comps).length =
      1 + rows.countP (fun r => r.lev == 0) := by
  induction rows with
  | nil => intro a comps; simp [BomSavings.groupGo]
  | cons r rest ih =>
    intro a comps
    by_cases h : (r.lev == 0)
    · rw [show BomSavings.groupGo (r :: rest) (some a) comps =
            ⟨a, comps⟩ :: BomSavings.groupGo rest (some r.component) [BomSavings.entryOf r]
          from by simp [BomSavings.groupGo, h],
        List.length_cons, ih]
      simp [List.countP_cons, h] <;> omega
    · rw [show BomSavings.groupGo (r :: rest) (some a) comps =
            BomSavings.groupGo rest (some a) (comps ++ [BomSavings.entryOf r]) from by
          simp [BomSavings.groupGo, h],
        ih]
      simp [List.countP_cons, h] <;> omega

theorem groupGo_length_none (rows : List BomSavings.SavRow) :
    ∀ comps, (BomSavings.groupGo rows none comps).length =
      rows.countP (fun r => r.lev == 0) := by
  induction rows with
  | nil => intro comps; simp [BomSavings.groupGo]
  | cons r rest ih =>
    intro comps
    by_cases h : (r.lev == 0)
    · rw [show BomSavings.groupGo (r :: rest) none comps =
            BomSavings.groupGo rest (some r.component) [BomSavings.entryOf r] from by
          simp [BomSavings.groupGo, h],
        groupGo_length_some]
      simp [List.countP_cons, h] <;> omega
    · rw [show BomSavings.groupGo (r :: rest) none comps =
            BomSavings.groupGo rest none (comps ++ [BomSavings.entryOf r]) from by
          simp [BomSavings.groupGo, h],
        ih]
      simp [List.countP_cons, h] <;> omega

/-- Structural invariant of an emitted assembly: a level-0 header first,
level-1 component entries after it, named by the header's component. -/
def headerShaped (g : BomSavings.Assembly) : Prop :=
  ∃ hd t', g.components = hd :: t' ∧ hd.level = 0 ∧ g.assembly = hd.component ∧
    ∀ e ∈ t', e.level = 1

theorem groupGo_headerShaped (rows : List BomSavings.SavRow) :
    ∀ cur comps,
      (∀ a, cur = some a → ∃ hd t', comps = hd :: t' ∧ hd.level = 0 ∧
        a = hd.component ∧ ∀ e ∈ t', e.level = 1) →
      ∀ g ∈ BomSavings.groupGo rows cur comps, headerShaped g := by
  induction rows with
  | nil =>
    intro cur comps hinv g hg
    cases cur with
    | none => cases hg
    | some a =>
      rcases List.mem_cons.mp hg with rfl | h'
      · exact hinv a rfl
      · cases h'
  | cons r rest ih =>
    intro cur comps hinv g hg
    by_cases h : (r.lev == 0)
    · have hentry : ∃ hd t', [BomSavings.entryOf r] = hd :: t' ∧ hd.level = 0 ∧
          r.component = hd.component ∧ ∀ e ∈ t', e.level = 1 := by
        refine ⟨BomSavings.entryOf r, [], rfl, ?_, rfl, by intro e he; cases he⟩
        simp [BomSavings.entryOf, h]
      cases cur with
      | none =>
        simp only [BomSavings.groupGo, if_pos h] at hg
        exact ih _ _ (fun a ha => by injection ha with ha'; exact ha' ▸ hentry) g hg
      | some a =>
        simp only [BomSavings.groupGo, if_pos h] at hg
        rcases List.mem_cons.mp hg with rfl | hg'
        · exact hinv a rfl
        · exact ih _ _ (fun a' ha' => by injection ha' with ha''; exact ha'' ▸ hentry) g hg'
    · simp only [BomSavings.groupGo, if_neg h] at hg
      refine ih _ _ ?_ g hg
      intro a ha
      rcases hinv a ha with ⟨hd, t', hc, hl, hn, ht⟩
      refine ⟨hd, t' ++ [BomSavings.entryOf r], by rw [hc]; rfl, hl, hn, ?_⟩
      intro e he
      rcases List.mem_append.mp he with he' | he'
      · exact ht e he'
      · rcases List.mem_singleton.mp he' with rfl
        simp [BomSavings.entryOf, h]

/-- C5 (amended): `calculate_bom_savings` groups rows by the
level-0-starts-a-new-assembly rule: the number of assemblies equals the
number of level-0 rows, the assemblies' component lists concatenate, in
order, to exactly the rows *from the first level-0 row on* (rows before
the first header are discarded — they belong to no assembly, and with no
level-0 row at all the output is empty), and every assembly consists of
its level-0 header row (providing name, price and currency) followed by
its level-1 component rows. -/
theorem claim_C5_grouping (rows : List BomSavings.SavRow) :
    (BomSavings.groupAssemblies rows).length = rows.countP (fun r => r.lev == 0) ∧
    BomSavings.flattenComps (BomSavings.groupAssemblies rows) =
      (rows.dropWhile (fun r => !(r.lev == 0))).map BomSavings.entryOf ∧
    ∀ g ∈ BomSavings.groupAssemblies rows, headerShaped g := by
  refine ⟨groupGo_length_none rows [], groupGo_flatten_none rows [], ?_⟩
  exact groupGo_headerShaped rows none [] (fun a ha => by cases ha)

/-- C5 witness: a two-assembly table with one component each. -/
theorem claim_C5_grouping_witness :
    (BomSavings.groupAssemblies
        [⟨0, "A", 1, 10, "GBP"⟩, ⟨1, "X", 2, 3, "GBP"⟩,
          ⟨0, "B", 1, 20, "GBP"⟩, ⟨1, "Y", 1, 4, "GBP"⟩]).length =
      ([⟨0, "A", 1, 10, "GBP"⟩, ⟨1, "X", 2, 3, "GBP"⟩,
          ⟨0, "B", 1, 20, "GBP"⟩, ⟨1, "Y", 1, 4, "GBP"⟩] :
        List BomSavings.SavRow).countP (fun r => r.lev == 0) :=
  (claim_C5_grouping _).1

theorem savings_filterMap_sum (rs : List (String × BomSavings.Replacement))
    (t : List BomSavings.CompEntry) :
    (((t.filterMap (fun c =>
        match rs.lookup c.component with
        | some rep => some (⟨c.component, rep.new_component, c.quantity,
              rep.price_diff * c.quantity, c.price, rep.new_price⟩ : BomSavings.ReplacedComp)
        | none => none)).map (·.savings)).sum) =
      (t.map (fun c =>
        match rs.lookup c.component with
        | some rep => rep.price_diff * c.quantity
        | none => 0)).sum := by
  induction t with
  | nil => rfl
  | cons c t ih =>
    cases h : rs.lookup c.component with
    | some rep => simp [List.filterMap_cons, h, ih]
    | none => simp [List.filterMap_cons, h, ih]

theorem replaced_filterMap_length (rs : List (String × BomSavings.Replacement))
    (t : List BomSavings.CompEntry) :
    ((t.filterMap (fun c =>
        match rs.lookup c.component with
        | some rep => some (⟨c.component, rep.new_component, c.quantity,
              rep.price_diff * c.quantity, c.price, rep.new_price⟩ : BomSavings.ReplacedComp)
        | none => none)).length) =
      t.countP (fun c => (rs.lookup c.component).isSome) := by
  induction t with
  | nil => rfl
  | cons c t ih =>
    cases h : rs.lookup c.component with
    | some rep => simp [List.filterMap_cons, h, ih, List.countP_cons]
    | none => simp [List.filterMap_cons, h, ih, List.countP_cons]

theorem processAssembly_savings (rs : List (String × BomSavings.Replacement))
    (g : BomSavings.Assembly) :
    (BomSavings.processAssembly rs g).savings =
      ((g.components.drop 1).map (fun c =>
        match rs.lookup c.component with
        | some rep => rep.price_diff * c.quantity
        | none => 0)).sum := by
  rcases g with ⟨a, comps⟩
  cases comps with
  | nil => simp [BomSavings.processAssembly]
  | cons hd t =>
    simp only [BomSavings.processAssembly, List.drop_succ_cons, List.drop_zero]
    exact savings_filterMap_sum rs t

theorem processAssembly_after (rs : List (String × BomSavings.Replacement))
    (g : BomSavings.Assembly) :
    (BomSavings.processAssembly rs g).total_after =
      (BomSavings.processAssembly rs g).total_before -
        (BomSavings.processAssembly rs g).savings := by
  rcases g with ⟨a, comps⟩
  cases comps with
  | nil => simp [BomSavings.processAssembly]
  | cons hd t => rfl

theorem processAssembly_replaced_count (rs : List (String × BomSavings.Replacement))
    (g : BomSavings.Assembly) :
    (BomSavings.processAssembly rs g).replaced_components_detail.length =
      (g.components.drop 1).countP (fun c => (rs.lookup c.component).isSome) := by
  rcases g with ⟨a, comps⟩
  cases comps with
  | nil => simp [BomSavings.processAssembly]
  | cons hd t =>
    simp only [BomSavings.processAssembly, List.drop_succ_cons, List.drop_zero]
    exact replaced_filterMap_length rs t

/-- C6: `calculate_bom_savings` computes each assembly's savings as the
sum, over its component rows (the rows after the header) whose component
name is a key of the replacements map, of `price_diff × quantity`; each
assembly's `total_after` equals its `total_before` minus that savings; and
in the summary, `total_cost_after = total_cost_before − total_savings`,
`total_savings` is the sum of the per-assembly savings, and
`components_replaced` counts every component-row replacement applied. -/
theorem claim_C6_savings (rows : List BomSavings.SavRow)
    (rs : List (String × BomSavings.Replacement)) :
    ((BomSavings.calculate_bom_savings rows rs).1.map (·.savings) =
      (BomSavings.groupAssemblies rows).map (fun g =>
        ((g.components.drop 1).map (fun c =>
          match rs.lookup c.component with
          | some rep => rep.price_diff * c.quantity
          | none => 0)).sum)) ∧
    ((BomSavings.calculate_bom_savings rows rs).1.map (·.total_after) =
      (BomSavings.calculate_bom_savings rows rs).1.map
        (fun r => r.total_before - r.savings)) ∧
    ((BomSavings.calculate_bom_savings rows rs).2.total_cost_after =
      (BomSavings.calculate_bom_savings rows rs).2.total_cost_before -
        (BomSavings.calculate_bom_savings rows rs).2.total_savings) ∧
    ((BomSavings.calculate_bom_savings rows rs).2.total_savings =
      ((BomSavings.calculate_bom_savings rows rs).1.map (·.savings)).sum) ∧
    ((BomSavings.calculate_bom_savings rows rs).2.components_replaced =
      ((BomSavings.groupAssemblies rows).map (fun g =>
        (g.components.drop 1).countP (fun c => (rs.lookup c.component).isSome))).sum) := by
  refine ⟨?_, ?_, rfl, rfl, ?_⟩
  · show ((BomSavings.groupAssemblies rows).map (BomSavings.processAssembly rs)).map
        (·.savings) = _
    rw [List.map_map]
    exact List.map_congr_left (fun g _ => processAssembly_savings rs g)
  · show ((BomSavings.groupAssemblies rows).map (BomSavings.processAssembly rs)).map
        (·.total_after) =
      ((BomSavings.groupAssemblies rows).map (BomSavings.processAssembly rs)).map
        (fun r => r.total_before - r.savings)
    rw [List.map_map, List.map_map]
    exact List.map_congr_left (fun g _ => processAssembly_after rs g)
  · show (((BomSavings.groupAssemblies rows).map (BomSavings.processAssembly rs)).map
        (·.replaced_components_detail.length)).sum = _
    rw [List.map_map]
    congr 1
    exact List.map_congr_left (fun g _ => processAssembly_replaced_count rs g)

theorem jaccardPct_eq_spec (m₁ m₂ : List (String × ℚ)) :
    BomUtils.jaccardPct m₁ m₂ =
      BomUtils.jaccardSpecPct (BomUtils.keyFinset m₁) (BomUtils.keyFinset m₂) := by
  unfold BomUtils.jaccardPct BomUtils.jaccardSpecPct
  by_cases h1 : BomUtils.keyFinset m₁ = ∅ <;> by_cases h2 : BomUtils.keyFinset m₂ = ∅
  · simp [h1, h2]
  · simp [h1, h2, Finset.empty_inter]
  · simp [h1, h2, Finset.inter_empty]
  · simp [h1, h2]

theorem mkBomPair_proj (a b : String) (m₁ m₂ : List (String × ℚ)) (pct : ℚ) :
    (BomUtils.mkBomPair a b m₁ m₂ pct).bom_a = a ∧
    (BomUtils.mkBomPair a b m₁ m₂ pct).bom_b = b ∧
    (BomUtils.mkBomPair a b m₁ m₂ pct).similarity_score =
      OptiMerge.pyRound 6 (pct / 100) :=
  ⟨rfl, rfl, rfl⟩

theorem compute_matrix_eq_spec (ac : List (String × List (String × ℚ))) (t : ℚ) :
    (BomUtils.compute_bom_similarity ac t).similarity_matrix = BomUtils.matrixSpec ac := by
  unfold BomUtils.compute_bom_similarity BomUtils.matrixSpec
  by_cases he : (ac.map Prod.fst).isEmpty
  · rw [if_pos he, List.isEmpty_iff.mp he]
    rfl
  · rw [if_neg he]
    refine List.map_congr_left (fun a _ => ?_)
    refine congrArg (Prod.mk a) (List.map_congr_left (fun b _ => ?_))
    rw [jaccardPct_eq_spec]

theorem compute_pairs_eq_spec (ac : List (String × List (String × ℚ))) (t : ℚ) :
    ((BomUtils.compute_bom_similarity ac t).similar_pairs.map
      (fun p => (p.bom_a, p.bom_b, p.similarity_score))) = BomUtils.pairScoreSpec ac t := by
  unfold BomUtils.compute_bom_similarity BomUtils.pairScoreSpec
  by_cases he : (ac.map Prod.fst).isEmpty
  · rw [if_pos he, if_pos he]
    rfl
  · rw [if_neg he, if_neg he]
    show ((((ac.map Prod.fst).enum).flatMap _).map _) = _
    rw [List.map_flatMap]
    refine List.flatMap_congr (fun ia _ => ?_)
    rw [List.map_filterMap]
    refine List.filterMap_congr (fun jb _ => ?_)
    by_cases hc : ia.1 < jb.1 ∧
        BomUtils.jaccardPct ((ac.lookup ia.2).getD []) ((ac.lookup jb.2).getD []) ≥ t
    · rw [if_pos hc, if_pos (by rw [← jaccardPct_eq_spec]; exact hc)]
      rw [← jaccardPct_eq_spec]
      rfl
    · rw [if_neg hc, if_neg (by rw [← jaccardPct_eq_spec]; exact hc)]
      rfl

theorem keySig_lookup_keys (ac ac' : List (String × List (String × ℚ)))
    (h : BomUtils.keySig ac = BomUtils.keySig ac') (x : String) :
    ((ac.lookup x).getD []).map Prod.fst = ((ac'.lookup x).getD []).map Prod.fst := by
  induction ac generalizing ac' with
  | nil =>
    cases ac' with
    | nil => rfl
    | cons q qs => simp [BomUtils.keySig] at h
  | cons p ps ih =>
    cases ac' with
    | nil => simp [BomUtils.keySig] at h
    | cons q qs =>
      simp only [BomUtils.keySig, List.map_cons, List.cons.injEq, Prod.mk.injEq] at h
      obtain ⟨⟨h1, h2⟩, h3⟩ := h
      by_cases hx : (x == p.1)
      · have hx' : (x == q.1) = true := by rw [← h1]; exact hx
        simp only [List.lookup, hx, hx', Option.getD_some]
        exact h2
      · have hx' : (x == q.1) = false := by rw [← h1]; exact Bool.of_not_eq_true hx
        simp only [List.lookup, Bool.of_not_eq_true hx, hx']
        exact ih qs h3

theorem keySig_map_fst (ac ac' : List (String × List (String × ℚ)))
    (h : BomUtils.keySig ac = BomUtils.keySig ac') :
    ac.map Prod.fst = ac'.map Prod.fst := by
  have := congrArg (List.map Prod.fst) h
  simpa [BomUtils.keySig, List.map_map] using this

theorem matrixSpec_keySig (ac ac' : List (String × List (String × ℚ)))
    (h : BomUtils.keySig ac = BomUtils.keySig ac') :
    BomUtils.matrixSpec ac = BomUtils.matrixSpec ac' := by
  unfold BomUtils.matrixSpec
  rw [← keySig_map_fst ac ac' h]
  refine List.map_congr_left (fun a _ => ?_)
  refine congrArg (Prod.mk a) (List.map_congr_left (fun b _ => ?_))
  rw [show BomUtils.keyFinset ((ac.lookup a).getD []) =
      BomUtils.keyFinset ((ac'.lookup a).getD []) from
      congrArg List.toFinset (keySig_lookup_keys ac ac' h a),
    show BomUtils.keyFinset ((ac.lookup b).getD []) =
      BomUtils.keyFinset ((ac'.lookup b).getD []) from
      congrArg List.toFinset (keySig_lookup_keys ac ac' h b)]

theorem pairScoreSpec_keySig (ac ac' : List (String × List (String × ℚ))) (t : ℚ)
    (h : BomUtils.keySig ac = BomUtils.keySig ac') :
    BomUtils.pairScoreSpec ac t = BomUtils.pairScoreSpec ac' t := by
  unfold BomUtils.pairScoreSpec
  rw [← keySig_map_fst ac ac' h]
  by_cases he : (ac.map Prod.fst).isEmpty
  · rw [if_pos he, if_pos he]
  · rw [if_neg he, if_neg he]
    refine List.flatMap_congr (fun ia _ => List.filterMap_congr (fun jb _ => ?_))
    rw [show BomUtils.keyFinset ((ac.lookup ia.2).getD []) =
        BomUtils.keyFinset ((ac'.lookup ia.2).getD []) from
        congrArg List.toFinset (keySig_lookup_keys ac ac' h ia.2),
      show BomUtils.keyFinset ((ac.lookup jb.2).getD []) =
        BomUtils.keyFinset ((ac'.lookup jb.2).getD []) from
        congrArg List.toFinset (keySig_lookup_keys ac ac' h jb.2)]

/-- C1 (amended): bom_utils.py's final `compute_bom_similarity` is
standard Jaccard on distinct component-name sets: every matrix entry is
the spec's Jaccard percentage (100 when both sets are empty, 0 when
exactly one is) rounded to 6 decimals; every emitted pair's
`similarity_score` is that percentage divided by 100 (rounded to 6
decimals); and the matrix and the `(bom_a, bom_b, similarity_score)`
content of the pairs are invariant under any change of quantities that
keeps the component-name sets fixed.  (The `/analyze/bom-similarity/`
endpoint, however, does *not* call this function — see the
counterexample.) -/
theorem claim_C1_jaccard_similarity (ac : List (String × List (String × ℚ))) (t : ℚ) :
    (BomUtils.compute_bom_similarity ac t).similarity_matrix = BomUtils.matrixSpec ac ∧
    ((BomUtils.compute_bom_similarity ac t).similar_pairs.map
        (fun p => (p.bom_a, p.bom_b, p.similarity_score)) = BomUtils.pairScoreSpec ac t) ∧
    (∀ pr ∈ (BomUtils.compute_bom_similarity ac t).similar_pairs,
      pr.similarity_score = OptiMerge.pyRound 6 (BomUtils.jaccardSpecPct
        (BomUtils.keyFinset ((ac.lookup pr.bom_a).getD []))
        (BomUtils.keyFinset ((ac.lookup pr.bom_b).getD [])) / 100)) ∧
    (∀ ac', BomUtils.keySig ac = BomUtils.keySig ac' →
      (BomUtils.compute_bom_similarity ac t).similarity_matrix =
        (BomUtils.compute_bom_similarity ac' t).similarity_matrix ∧
      (BomUtils.compute_bom_similarity ac t).similar_pairs.map
          (fun p => (p.bom_a, p.bom_b, p.similarity_score)) =
        (BomUtils.compute_bom_similarity ac' t).similar_pairs.map
          (fun p => (p.bom_a, p.bom_b, p.similarity_score))) := by
  refine ⟨compute_matrix_eq_spec ac t, compute_pairs_eq_spec ac t, ?_, ?_⟩
  · intro pr hpr
    unfold BomUtils.compute_bom_similarity at hpr
    by_cases he : (ac.map Prod.fst).isEmpty
    · rw [if_pos he] at hpr
      cases hpr
    · rw [if_neg he] at hpr
      obtain ⟨ia, _, hpr⟩ := List.mem_flatMap.mp hpr
      obtain ⟨jb, _, hjb⟩ := List.mem_filterMap.mp hpr
      by_cases hc : ia.1 < jb.1 ∧
          BomUtils.jaccardPct ((ac.lookup ia.2).getD []) ((ac.lookup jb.2).getD []) ≥ t
      · rw [if_pos hc] at hjb
        obtain rfl := Option.some.inj hjb
        rw [(mkBomPair_proj ia.2 jb.2 _ _ _).1, (mkBomPair_proj ia.2 jb.2 _ _ _).2.1,
          (mkBomPair_proj ia.2 jb.2 _ _ _).2.2, jaccardPct_eq_spec]
      · rw [if_neg hc] at hjb
        cases hjb
  · intro ac' hsig
    constructor
    · rw [compute_matrix_eq_spec, compute_matrix_eq_spec, matrixSpec_keySig ac ac' hsig]
    · rw [compute_pairs_eq_spec, compute_pairs_eq_spec, pairScoreSpec_keySig ac ac' t hsig]

/-- C1 witness: doubling a quantity while keeping the component-name sets
fixed leaves bom_utils' similarity matrix unchanged. -/
theorem claim_C1_jaccard_similarity_witness :
    BomUtils.keySig [("A", [("x", 1)]), ("B", [("x", 1)])] =
      BomUtils.keySig [("A", [("x", 1)]), ("B", [("x", 2)])] ∧
    (BomUtils.compute_bom_similarity [("A", [("x", 1)]), ("B", [("x", 1)])] 0).similarity_matrix =
      (BomUtils.compute_bom_similarity [("A", [("x", 1)]), ("B", [("x", 2)])] 0).similarity_matrix :=
  ⟨by decide,
    ((claim_C1_jaccard_similarity [("A", [("x", 1)]), ("B", [("x", 1)])] 0).2.2.2
      [("A", [("x", 1)]), ("B", [("x", 2)])] (by decide)).1⟩

theorem clusterAbsorb_subset (matrix : List (String × List (String × ℚ))) (t : ℚ)
    (a : String) (cand : List String) :
    ∀ used x, x ∈ OptiMerge.clusterAbsorb matrix t a cand used → x ∈ cand := by
  induction cand with
  | nil => intro used x hx; cases hx
  | cons b rest ih =>
    intro used x hx
    by_cases hc : b ∉ used ∧ OptiMerge.matrixEntry matrix a b > t
    · rw [show OptiMerge.clusterAbsorb matrix t a (b :: rest) used =
          b :: OptiMerge.clusterAbsorb matrix t a rest (b :: used) from by
        simp only [OptiMerge.clusterAbsorb, if_pos hc]] at hx
      rcases List.mem_cons.mp hx with rfl | hx'
      · exact List.mem_cons_self _ _
      · exact List.mem_cons_of_mem _ (ih _ _ hx')
    · rw [show OptiMerge.clusterAbsorb matrix t a (b :: rest) used =
          OptiMerge.clusterAbsorb matrix t a rest used from by
        simp only [OptiMerge.clusterAbsorb, if_neg hc]] at hx
      exact List.mem_cons_of_mem _ (ih _ _ hx)

theorem clusterAbsorb_disjoint (matrix : List (String × List (String × ℚ))) (t : ℚ)
    (a : String) (cand : List String) :
    ∀ used x, x ∈ OptiMerge.clusterAbsorb matrix t a cand used → x ∉ used := by
  induction cand with
  | nil => intro used x hx; cases hx
  | cons b rest ih =>
    intro used x hx
    by_cases hc : b ∉ used ∧ OptiMerge.matrixEntry matrix a b > t
    · rw [show OptiMerge.clusterAbsorb matrix t a (b :: rest) used =
          b :: OptiMerge.clusterAbsorb matrix t a rest (b :: used) from by
        simp only [OptiMerge.clusterAbsorb, if_pos hc]] at hx
      rcases List.mem_cons.mp hx with rfl | hx'
      · exact hc.1
      · intro hxu
        exact ih _ _ hx' (List.mem_cons_of_mem _ hxu)
    · rw [show OptiMerge.clusterAbsorb matrix t a (b :: rest) used =
          OptiMerge.clusterAbsorb matrix t a rest used from by
        simp only [OptiMerge.clusterAbsorb, if_neg hc]] at hx
      exact ih _ _ hx

theorem clusterAbsorb_nodup (matrix : List (String × List (String × ℚ))) (t : ℚ)
    (a : String) (cand : List String) :
    ∀ used, (OptiMerge.clusterAbsorb matrix t a cand used).Nodup := by
  induction cand with
  | nil => intro used; exact List.nodup_nil
  | cons b rest ih =>
    intro used
    by_cases hc : b ∉ used ∧ OptiMerge.matrixEntry matrix a b > t
    · rw [show OptiMerge.clusterAbsorb matrix t a (b :: rest) used =
          b :: OptiMerge.clusterAbsorb matrix t a rest (b :: used) from by
        simp only [OptiMerge.clusterAbsorb, if_pos hc]]
      refine List.Nodup.cons ?_ (ih _)
      intro hb
      exact clusterAbsorb_disjoint matrix t a rest _ b hb (List.mem_cons_self _ _)
    · rw [show OptiMerge.clusterAbsorb matrix t a (b :: rest) used =
          OptiMerge.clusterAbsorb matrix t a rest used from by
        simp only [OptiMerge.clusterAbsorb, if_neg hc]]
      exact ih _

theorem clustersGo_cons_mem (A : List String) (m : List (String × List (String × ℚ)))
    (t : ℚ) (a : String) (rest used : List String) (ha : a ∈ used) :
    OptiMerge.clustersGo A m t (a :: rest) used = OptiMerge.clustersGo A m t rest used := by
  simp only [OptiMerge.clustersGo, if_pos ha]

theorem clustersGo_cons_not_mem (A : List String) (m : List (String × List (String × ℚ)))
    (t : ℚ) (a : String) (rest used : List String) (ha : a ∉ used) :
    OptiMerge.clustersGo A m t (a :: rest) used =
      (a :: OptiMerge.clusterAbsorb m t a A (a :: used)) ::
        OptiMerge.clustersGo A m t rest
          (OptiMerge.clusterAbsorb m t a A (a :: used) ++ a :: used) := by
  simp only [OptiMerge.clustersGo, if_neg ha]

theorem clustersGo_ne_nil (A : List String) (m : List (String × List (String × ℚ)))
    (t : ℚ) (rows : List String) :
    ∀ used, ∀ c ∈ OptiMerge.clustersGo A m t rows used, c ≠ [] := by
  induction rows with
  | nil => intro used c hc; cases hc
  | cons a rest ih =>
    intro used c hc
    by_cases ha : a ∈ used
    · rw [clustersGo_cons_mem A m t a rest used ha] at hc
      exact ih _ c hc
    · rw [clustersGo_cons_not_mem A m t a rest used ha] at hc
      rcases List.mem_cons.mp hc with rfl | hc'
      · exact List.cons_ne_nil _ _
      · exact ih _ c hc'

theorem clustersGo_flatten_disjoint (A : List String)
    (m : List (String × List (String × ℚ))) (t : ℚ) (rows : List String) :
    ∀ used x, x ∈ (OptiMerge.clustersGo A m t rows used).flatten → x ∉ used := by
  induction rows with
  | nil => intro used x hx; cases hx
  | cons a rest ih =>
    intro used x hx
    by_cases ha : a ∈ used
    · rw [clustersGo_cons_mem A m t a rest used ha] at hx
      exact ih _ _ hx
    · rw [clustersGo_cons_not_mem A m t a rest used ha, List.flatten_cons] at hx
      rcases List.mem_append.mp hx with hx' | hx'
      · rcases List.mem_cons.mp hx' with rfl | hx''
        · exact ha
        · intro hxu
          exact clusterAbsorb_disjoint m t a A _ x hx'' (List.mem_cons_of_mem _ hxu)
      · intro hxu
        exact ih _ _ hx' (List.mem_append.mpr (Or.inr (List.mem_cons_of_mem _ hxu)))

theorem clustersGo_flatten_nodup (A : List String)
    (m : List (String × List (String × ℚ))) (t : ℚ) (rows : List String) :
    ∀ used, (OptiMerge.clustersGo A m t rows used).flatten.Nodup := by
  induction rows with
  | nil => intro used; exact List.nodup_nil
  | cons a rest ih =>
    intro used
    by_cases ha : a ∈ used
    · rw [clustersGo_cons_mem A m t a rest used ha]
      exact ih _
    · rw [clustersGo_cons_not_mem A m t a rest used ha, List.flatten_cons]
      refine List.Nodup.append ?_ (ih _) ?_
      · refine List.Nodup.cons ?_ (clusterAbsorb_nodup m t a A _)
        intro hmem
        exact clusterAbsorb_disjoint m t a A _ a hmem (List.mem_cons_self _ _)
      · intro x hx hx'
        have := clustersGo_flatten_disjoint A m t rest _ x hx'
        rcases List.mem_cons.mp hx with rfl | hx''
        · exact this (List.mem_append.mpr (Or.inr (List.mem_cons_self _ _)))
        · exact this (List.mem_append.mpr (Or.inl hx''))

theorem clustersGo_flatten_subset (A : List String)
    (m : List (String × List (String × ℚ))) (t : ℚ) (rows : List String) :
    ∀ used, rows ⊆ A → ∀ x ∈ (OptiMerge.clustersGo A m t rows used).flatten, x ∈ A := by
  induction rows with
  | nil => intro used _ x hx; cases hx
  | cons a rest ih =>
    intro used hsub x hx
    by_cases ha : a ∈ used
    · rw [clustersGo_cons_mem A m t a rest used ha] at hx
      exact ih _ (fun y hy => hsub (List.mem_cons_of_mem _ hy)) x hx
    · rw [clustersGo_cons_not_mem A m t a rest used ha, List.flatten_cons] at hx
      rcases List.mem_append.mp hx with hx' | hx'
      · rcases List.mem_cons.mp hx' with rfl | hx''
        · exact hsub (List.mem_cons_self _ _)
        · exact clusterAbsorb_subset m t a A _ x hx''
      · exact ih _ (fun y hy => hsub (List.mem_cons_of_mem _ hy)) x hx'

theorem clustersGo_flatten_covers (A : List String)
    (m : List (String × List (String × ℚ))) (t : ℚ) (rows : List String) :
    ∀ used x, x ∈ rows → x ∉ used → x ∈ (OptiMerge.clustersGo A m t rows used).flatten := by
  induction rows with
  | nil => intro used x hx; cases hx
  | cons a rest ih =>
    intro used x hx hxu
    by_cases ha : a ∈ used
    · rw [clustersGo_cons_mem A m t a rest used ha]
      rcases List.mem_cons.mp hx with rfl | hx'
      · exact absurd ha hxu
      · exact ih _ x hx' hxu
    · rw [clustersGo_cons_not_mem A m t a rest used ha, List.flatten_cons]
      rcases List.mem_cons.mp hx with rfl | hx'
      · exact List.mem_append.mpr (Or.inl (List.mem_cons_self _ _))
      · by_cases hxu' : x ∈ OptiMerge.clusterAbsorb m t a A (a :: used) ++ a :: used
        · rcases List.mem_append.mp hxu' with hm | hm
          · exact List.mem_append.mpr (Or.inl (List.mem_cons_of_mem _ hm))
          · rcases List.mem_cons.mp hm with rfl | hm'
            · exact List.mem_append.mpr (Or.inl (List.mem_cons_self _ _))
            · exact absurd hm' hxu
        · exact List.mem_append.mpr (Or.inr (ih _ x hx' hxu'))

theorem clustersGo_heads (A : List String) (m : List (String × List (String × ℚ)))
    (t : ℚ) (rows : List String) :
    ∀ used i c, ((OptiMerge.clustersGo A m t rows used).drop i).head? = some c →
      c.head? = (rows.filter (fun x => decide (x ∉ used ∧
        x ∉ ((OptiMerge.clustersGo A m t rows used).take i).flatten))).head? := by
  induction rows with
  | nil =>
    intro used i c hc
    rw [show OptiMerge.clustersGo A m t [] used = [] from rfl] at hc
    simp at hc
  | cons a rest ih =>
    intro used i c hc
    by_cases ha : a ∈ used
    · rw [clustersGo_cons_mem A m t a rest used ha] at hc ⊢
      rw [ih used i c hc]
      congr 1
      rw [List.filter_cons_of_neg]
      simp [ha]
    · rw [clustersGo_cons_not_mem A m t a rest used ha] at hc ⊢
      cases i with
      | zero =>
        simp only [List.drop_zero, List.head?_cons, Option.some.injEq] at hc
        subst hc
        rw [List.take_zero, List.filter_cons_of_pos]
        · rfl
        · simp [ha]
      | succ j =>
        rw [List.drop_succ_cons] at hc
        rw [ih _ j c hc, List.take_succ_cons, List.flatten_cons]
        rw [List.filter_cons_of_neg (by simp)]
        refine congrArg _ (List.filter_congr (fun x _ => ?_))
        refine decide_eq_decide.mpr ?_
        simp only [List.mem_append, List.mem_cons]
        tauto

/-- C10: for distinct assembly names, `find_assembly_clusters` returns a
partition of the input — every returned cluster is non-empty, the
concatenation of the clusters is a permutation of the input (so every
input assembly appears in exactly one cluster), and the first element of
cluster `i` is the earliest input assembly not contained in any earlier
cluster. -/
theorem claim_C10_clusters_partition (assemblies : List String)
    (matrix : List (String × List (String × ℚ))) (t : ℚ) (h : assemblies.Nodup) :
    (∀ c ∈ OptiMerge.find_assembly_clusters assemblies matrix t, c ≠ []) ∧
    (OptiMerge.find_assembly_clusters assemblies matrix t).flatten.Perm assemblies ∧
    (∀ i c, ((OptiMerge.find_assembly_clusters assemblies matrix t).drop i).head? = some c →
      c.head? = (assemblies.filter (fun x =>
        decide (x ∉ ((OptiMerge.find_assembly_clusters assemblies matrix t).take i).flatten))).head?) := by
  unfold OptiMerge.find_assembly_clusters
  refine ⟨clustersGo_ne_nil assemblies matrix t assemblies [], ?_, ?_⟩
  · rw [List.perm_ext_iff_of_nodup (clustersGo_flatten_nodup assemblies matrix t assemblies []) h]
    intro x
    constructor
    · exact clustersGo_flatten_subset assemblies matrix t assemblies []
        (fun y hy => hy) x
    · intro hx
      exact clustersGo_flatten_covers assemblies matrix t assemblies [] x hx
        (List.not_mem_nil x)
  · intro i c hc
    rw [clustersGo_heads assemblies matrix t assemblies [] i c hc]
    refine congrArg _ (List.filter_congr (fun x _ => ?_))
    refine decide_eq_decide.mpr ?_
    simp

/-- C10 witness: three distinct assemblies with an empty similarity
matrix split into singleton clusters covering the input. -/
theorem claim_C10_clusters_partition_witness :
    (["A", "B", "C"] : List String).Nodup ∧
    (OptiMerge.find_assembly_clusters ["A", "B", "C"] [] 80).flatten.Perm
      ["A", "B", "C"] :=
  ⟨by decide, (claim_C10_clusters_partition ["A", "B", "C"] [] 80 (by decide)).2.1⟩

theorem char_toNat_ofNat_small (m : ℕ) (h : m < 55296) : (Char.ofNat m).toNat = m := by
  unfold Char.ofNat
  rw [dif_pos (Or.inl h)]
  simp [Char.ofNatAux, Char.toNat, UInt32.toNat]

theorem toLower_eq_of_big (c : Char) (h : ¬(c.toNat ≥ 65 ∧ c.toNat ≤ 90)) :
    Char.toLower c = c := by
  show (if c.toNat ≥ 65 ∧ c.toNat ≤ 90 then Char.ofNat (c.toNat + 32) else c) = c
  rw [if_neg h]

theorem toLower_toLower (c : Char) : Char.toLower (Char.toLower c) = Char.toLower c := by
  by_cases h : c.toNat ≥ 65 ∧ c.toNat ≤ 90
  · have h1 : Char.toLower c = Char.ofNat (c.toNat + 32) := by
      show (if c.toNat ≥ 65 ∧ c.toNat ≤ 90 then Char.ofNat (c.toNat + 32) else c) = _
      rw [if_pos h]
    rw [h1]
    apply toLower_eq_of_big
    rw [char_toNat_ofNat_small (c.toNat + 32) (by omega)]
    omega
  · rw [toLower_eq_of_big c h, toLower_eq_of_big c h]

theorem replace_lower_fixed (c : Char) :
    Char.toLower (OptiMerge.replaceNonAlnumChar (Char.toLower c)) =
      OptiMerge.replaceNonAlnumChar (Char.toLower c) ∧
    OptiMerge.replaceNonAlnumChar (OptiMerge.replaceNonAlnumChar (Char.toLower c)) =
      OptiMerge.replaceNonAlnumChar (Char.toLower c) := by
  by_cases h : (Char.toLower c).isAlphanum
  · rw [show OptiMerge.replaceNonAlnumChar (Char.toLower c) = Char.toLower c from by
      simp [OptiMerge.replaceNonAlnumChar, h]]
    exact ⟨toLower_toLower c, by simp [OptiMerge.replaceNonAlnumChar, h]⟩
  · rw [show OptiMerge.replaceNonAlnumChar (Char.toLower c) = '_' from by
      simp [OptiMerge.replaceNonAlnumChar, h]]
    exact ⟨by decide, by decide⟩

theorem squeeze_subset : ∀ (l : List Char), ∀ x ∈ OptiMerge.squeezeUnderscores l, x ∈ l := by
  intro l
  induction l with
  | nil => intro x hx; cases hx
  | cons c cs ih =>
    intro x hx
    cases hsq : OptiMerge.squeezeUnderscores cs with
    | nil =>
      rw [show OptiMerge.squeezeUnderscores (c :: cs) = [c] from by
        simp [OptiMerge.squeezeUnderscores, hsq]] at hx
      rcases List.mem_singleton.mp hx with rfl
      exact List.mem_cons_self _ _
    | cons d ds =>
      by_cases hb : (c == '_' && d == '_')
      · rw [show OptiMerge.squeezeUnderscores (c :: cs) = d :: ds from by
          simp [OptiMerge.squeezeUnderscores, hsq, hb]] at hx
        exact List.mem_cons_of_mem _ (ih x (hsq ▸ hx))
      · rw [show OptiMerge.squeezeUnderscores (c :: cs) = c :: d :: ds from by
          simp only [OptiMerge.squeezeUnderscores, hsq]
          rw [if_neg (by simpa using hb)]] at hx
        rcases List.mem_cons.mp hx with rfl | hx'
        · exact List.mem_cons_self _ _
        · exact List.mem_cons_of_mem _ (ih x (hsq ▸ hx'))

theorem squeeze_chain' : ∀ (l : List Char),
    List.Chain' (fun a b => ¬(a = '_' ∧ b = '_')) (OptiMerge.squeezeUnderscores l) := by
  intro l
  induction l with
  | nil => exact List.chain'_nil
  | cons c cs ih =>
    cases hsq : OptiMerge.squeezeUnderscores cs with
    | nil =>
      rw [show OptiMerge.squeezeUnderscores (c :: cs) = [c] from by
        simp [OptiMerge.squeezeUnderscores, hsq]]
      exact List.chain'_singleton c
    | cons d ds =>
      rw [hsq] at ih
      by_cases hb : (c == '_' && d == '_')
      · rw [show OptiMerge.squeezeUnderscores (c :: cs) = d :: ds from by
          simp [OptiMerge.squeezeUnderscores, hsq, hb]]
        exact ih
      · rw [show OptiMerge.squeezeUnderscores (c :: cs) = c :: d :: ds from by
          simp only [OptiMerge.squeezeUnderscores, hsq]
          rw [if_neg (by simpa using hb)]]
        refine List.chain'_cons.mpr ⟨?_, ih⟩
        rintro ⟨rfl, rfl⟩
        simp at hb

theorem squeeze_of_chain' : ∀ (l : List Char),
    List.Chain' (fun a b => ¬(a = '_' ∧ b = '_')) l →
      OptiMerge.squeezeUnderscores l = l := by
  intro l
  induction l with
  | nil => intro _; rfl
  | cons c cs ih =>
    intro h
    have hcs := ih h.tail
    cases cs with
    | nil => rfl
    | cons d ds =>
      have hrel : ¬(c = '_' ∧ d = '_') := h.rel_head
      have hb : ¬((c == '_' && d == '_') = true) := by
        intro hb'
        simp only [Bool.and_eq_true, beq_iff_eq] at hb'
        exact hrel hb'
      show (match OptiMerge.squeezeUnderscores (d :: ds) with
        | [] => [c]
        | d' :: ds' => if c == '_' && d' == '_' then d' :: ds' else c :: d' :: ds') = _
      rw [hcs]
      show (if (c == '_' && d == '_') = true then d :: ds else c :: d :: ds) = c :: d :: ds
      rw [if_neg hb]

theorem dropWhile_head_not {α : Type} (p : α → Bool) :
    ∀ (l : List α) (x : α), ((l.dropWhile p).head? = some x) → p x = false := by
  intro l
  induction l with
  | nil => intro x hx; cases hx
  | cons c cs ih =>
    intro x hx
    by_cases hc : p c
    · rw [List.dropWhile_cons, if_pos hc] at hx
      exact ih x hx
    · rw [List.dropWhile_cons, if_neg hc] at hx
      obtain rfl := Option.some.inj hx
      exact Bool.of_not_eq_true hc

theorem strip_head_not (l : List Char) :
    ∀ x, (OptiMerge.stripUnderscores l).head? = some x → (x == '_') = false := by
  intro x hx
  unfold OptiMerge.stripUnderscores at hx
  rw [List.head?_reverse] at hx
  have hne : ((l.dropWhile (fun c => c == '_')).reverse.dropWhile (fun c => c == '_')) ≠ [] := by
    intro h0
    rw [h0] at hx
    cases hx
  obtain ⟨t, ht⟩ := List.dropWhile_suffix (l := (l.dropWhile (fun c => c == '_')).reverse)
    (fun c => c == '_')
  have hgl : ((l.dropWhile (fun c => c == '_')).reverse).getLast? = some x := by
    rw [← ht, List.getLast?_append_of_ne_nil _ hne]
    exact hx
  rw [List.getLast?_reverse] at hgl
  exact dropWhile_head_not _ _ x hgl

theorem strip_last_not (l : List Char) :
    ∀ x, (OptiMerge.stripUnderscores l).getLast? = some x → (x == '_') = false := by
  intro x hx
  unfold OptiMerge.stripUnderscores at hx
  rw [List.getLast?_reverse] at hx
  exact dropWhile_head_not _ _ x hx

theorem strip_subset (l : List Char) : ∀ x ∈ OptiMerge.stripUnderscores l, x ∈ l := by
  intro x hx
  unfold OptiMerge.stripUnderscores at hx
  rw [List.mem_reverse] at hx
  have h1 := (List.dropWhile_suffix (fun c => c == '_')).subset hx
  rw [List.mem_reverse] at h1
  exact (List.dropWhile_suffix (fun c => c == '_')).subset h1

theorem chain'_reverse_of (l : List Char)
    (h : List.Chain' (fun a b => ¬(a = '_' ∧ b = '_')) l) :
    List.Chain' (fun a b => ¬(a = '_' ∧ b = '_')) l.reverse := by
  rw [List.chain'_reverse]
  exact h.imp (fun a b hab => fun hba => hab ⟨hba.2, hba.1⟩)

theorem strip_chain' (l : List Char)
    (h : List.Chain' (fun a b => ¬(a = '_' ∧ b = '_')) l) :
    List.Chain' (fun a b => ¬(a = '_' ∧ b = '_')) (OptiMerge.stripUnderscores l) := by
  unfold OptiMerge.stripUnderscores
  apply chain'_reverse_of
  refine List.Chain'.suffix ?_ (List.dropWhile_suffix _)
  apply chain'_reverse_of
  exact List.Chain'.suffix h (List.dropWhile_suffix _)

theorem strip_of_bounds (l : List Char)
    (hh : ∀ x, l.head? = some x → (x == '_') = false)
    (hl : ∀ x, l.getLast? = some x → (x == '_') = false) :
    OptiMerge.stripUnderscores l = l := by
  have h1 : l.dropWhile (fun c => c == '_') = l := by
    cases l with
    | nil => rfl
    | cons c cs =>
      rw [List.dropWhile_cons, hh c rfl]
      simp
  have h2 : l.reverse.dropWhile (fun c => c == '_') = l.reverse := by
    cases hr : l.reverse with
    | nil => rfl
    | cons c cs =>
      have hc : l.getLast? = some c := by
        rw [← List.head?_reverse, hr]
        rfl
      rw [List.dropWhile_cons, hl c hc]
      simp
  unfold OptiMerge.stripUnderscores
  rw [h1, h2, List.reverse_reverse]

theorem cleanChars_good (l : List Char) :
    ∀ x ∈ OptiMerge.cleanChars l,
      Char.toLower x = x ∧ OptiMerge.replaceNonAlnumChar x = x := by
  intro x hx
  unfold OptiMerge.cleanChars at hx
  have h1 := strip_subset _ x hx
  have h2 := squeeze_subset _ x h1
  simp only [List.map_map, List.mem_map] at h2
  obtain ⟨c, _, rfl⟩ := h2
  exact replace_lower_fixed c

theorem cleanChars_chain' (l : List Char) :
    List.Chain' (fun a b => ¬(a = '_' ∧ b = '_')) (OptiMerge.cleanChars l) :=
  strip_chain' _ (squeeze_chain' _)

theorem cleanChars_head (l : List Char) :
    ∀ x, (OptiMerge.cleanChars l).head? = some x → (x == '_') = false :=
  strip_head_not _

theorem cleanChars_last (l : List Char) :
    ∀ x, (OptiMerge.cleanChars l).getLast? = some x → (x == '_') = false :=
  strip_last_not _

theorem cleanChars_fixed (m : List Char)
    (hg : ∀ x ∈ m, Char.toLower x = x ∧ OptiMerge.replaceNonAlnumChar x = x)
    (hc : List.Chain' (fun a b => ¬(a = '_' ∧ b = '_')) m)
    (hh : ∀ x, m.head? = some x → (x == '_') = false)
    (hl : ∀ x, m.getLast? = some x → (x == '_') = false) :
    OptiMerge.cleanChars m = m := by
  have h1 : m.map Char.toLower = m := by
    calc m.map Char.toLower = m.map id := List.map_congr_left (fun x hx => (hg x hx).1)
    _ = m := List.map_id m
  have h2 : m.map OptiMerge.replaceNonAlnumChar = m := by
    calc m.map OptiMerge.replaceNonAlnumChar = m.map id :=
      List.map_congr_left (fun x hx => (hg x hx).2)
    _ = m := List.map_id m
  unfold OptiMerge.cleanChars
  rw [h1, h2, squeeze_of_chain' m hc, strip_of_bounds m hh hl]

theorem cleanChars_idem (l : List Char) :
    OptiMerge.cleanChars (OptiMerge.cleanChars l) = OptiMerge.cleanChars l :=
  cleanChars_fixed _ (cleanChars_good l) (cleanChars_chain' l)
    (cleanChars_head l) (cleanChars_last l)

/-- C9: `clean_column_name` is idempotent, its result is lowercase (every
character is fixed by `toLower`), has no leading or trailing underscore,
contains no two consecutive underscores, and an absent input yields
`"unknown"`. -/
theorem claim_C9_clean_column_name (s : Option String) :
    OptiMerge.clean_column_name (some (OptiMerge.clean_column_name s)) =
      OptiMerge.clean_column_name s ∧
    (∀ c ∈ (OptiMerge.clean_column_name s).data, Char.toLower c = c) ∧
    (OptiMerge.clean_column_name s).data.head? ≠ some '_' ∧
    (OptiMerge.clean_column_name s).data.getLast? ≠ some '_' ∧
    List.Chain' (fun a b => ¬(a = '_' ∧ b = '_')) (OptiMerge.clean_column_name s).data ∧
    OptiMerge.clean_column_name none = "unknown" := by
  cases s with
  | none =>
    refine ⟨by decide, by decide, by decide, by decide, ?_, rfl⟩
    show List.Chain' (fun a b => ¬(a = '_' ∧ b = '_'))
      ['u', 'n', 'k', 'n', 'o', 'w', 'n']
    simp [List.chain'_cons]
  | some str =>
    refine ⟨congrArg String.mk (cleanChars_idem str.data), ?_, ?_, ?_,
      cleanChars_chain' str.data, rfl⟩
    · intro c hc
      exact (cleanChars_good str.data c hc).1
    · intro h
      have hcontra := cleanChars_head str.data '_' h
      simp at hcontra
    · intro h
      have hcontra := cleanChars_last str.data '_' h
      simp at hcontra
